import Mathlib

/-!
# Verification of the Fina → Wolt catalog/inventory synchronizer

A shallow embedding, in Lean 4, of the algorithmic core of the synchronizer:
the priority scorer (`src/core/priorityScorer.ts`), the sync engine
(`src/core/sync.ts`), the state manager (`src/core/state.ts`), the adaptive
batcher (`src/utils/adaptiveBatcher.ts`), the per-venue rate limiter
(`src/utils/woltRateLimiter.ts`) and the priority-sync phase of the hybrid
orchestrator (`src/core/hybridSync.ts`).

Modelling conventions, used throughout:

* JavaScript numbers that originate from JSON (prices, quantities,
  thresholds, timestamps) are modelled as rationals `ℚ`: `JSON.parse` can
  only produce finite numbers, so `Number.isFinite` holds for all of them
  and NaN/Infinity never arise on these paths.
* a JS value that may be `undefined` (for instance `FinaProductDetail.price`
  at runtime, despite its declared type) is an `Option`;
* JS `Map`s and plain objects are association lists in insertion order,
  mirroring the iteration order of `Map`/`Object.entries`;
* asynchronous I/O (HTTP pushes, state-file writes) is reified as an
  explicit effect trace produced by the run, in program order.
-/

/-- One record of the Fina inventory snapshot (`GET getProductsRestByStore`).
`rest` is the remaining quantity. -/
structure FinaInventoryItem where
  id : ℕ
  rest : ℚ
  store_id : ℕ
deriving Repr, DecidableEq

/-- One `add_fields` extension pair on a Fina product detail. -/
structure FinaProductField where
  field : String
  value : String
deriving Repr, DecidableEq

/-- One Fina product detail record (`POST getProductsArray`).  The TS type
declares `price : number`, but at runtime the field may be `undefined`
(the invalid-price data that drives the force-zero rule), hence `Option ℚ`. -/
structure FinaProductDetail where
  id : ℕ
  title : String
  price : Option ℚ
  add_fields : List FinaProductField
deriving Repr, DecidableEq

/-- Wolt inventory-endpoint update entry (`{sku, inventory}`). -/
structure WoltInventoryItem where
  sku : String
  inventory : ℚ
deriving Repr, DecidableEq

/-- Wolt items-endpoint update entry (`{sku, enabled?, price?}`).  A `none`
price covers both an absent field and an explicit `undefined` value (the two
serialize identically in the JSON payload). -/
structure WoltItemUpdate where
  sku : String
  enabled : Option Bool
  price : Option ℚ
deriving Repr, DecidableEq

/-- One persisted state entry: last-known `{quantity, enabled, price, lastSeen}`
for a SKU (type `SyncState[string]` in `src/types/index.ts`). -/
structure StateEntry where
  quantity : ℚ
  enabled : Bool
  price : Option ℚ
  lastSeen : ℚ
deriving Repr, DecidableEq

/-- A per-store state map, as an association list in object-key order. -/
abbrev SyncStateA := List (String × StateEntry)

/-- Lookup in an association list (first binding wins — keys of the modelled
objects and `Map`s are pairwise distinct once built). -/
def alistGet {β : Type} (l : List (String × β)) (k : String) : Option β :=
  match l with
  | [] => none
  | (k₁, v₁) :: t => if k₁ = k then some v₁ else alistGet t k

/-- `Map.set` / object-index assignment: update in place if the key exists,
else append, preserving insertion order. -/
def alistSet {β : Type} (l : List (String × β)) (k : String) (v : β) :
    List (String × β) :=
  match l with
  | [] => [(k, v)]
  | (k₁, v₁) :: t => if k₁ = k then (k, v) :: t else (k₁, v₁) :: alistSet t k v

/-- Same operations for `Map<number, _>` keys. -/
def nlistGet {β : Type} (l : List (ℕ × β)) (k : ℕ) : Option β :=
  match l with
  | [] => none
  | (k₁, v₁) :: t => if k₁ = k then some v₁ else nlistGet t k

def nlistSet {β : Type} (l : List (ℕ × β)) (k : ℕ) (v : β) : List (ℕ × β) :=
  match l with
  | [] => [(k, v)]
  | (k₁, v₁) :: t => if k₁ = k then (k, v) :: t else (k₁, v₁) :: nlistSet t k v

namespace PriorityScorer

/-- The scorer's weight/threshold configuration (`PriorityConfig`). -/
structure PriorityConfig where
  inStockWeight : ℚ
  highStockWeight : ℚ
  highStockThreshold : ℚ
  highValueWeight : ℚ
  highValueThreshold : ℚ
  lowStockWeight : ℚ
  lowStockThreshold : ℚ
deriving Repr, DecidableEq

/-- The constructor's environment defaults
(`PRIORITY_IN_STOCK_WEIGHT || '100'`, etc.). -/
def defaultConfig : PriorityConfig :=
  { inStockWeight := 100
    highStockWeight := 20
    highStockThreshold := 50
    highValueWeight := 15
    highValueThreshold := 50
    lowStockWeight := 10
    lowStockThreshold := 5 }

/-- `PriorityScorer.calculatePriority`.  The invalid-price guard
`typeof detail.price !== 'number' || detail.price < 0` becomes: price absent,
or present and negative (JSON numbers are always finite). -/
def calculatePriority (cfg : PriorityConfig) (inventory : FinaInventoryItem)
    (detail : FinaProductDetail) : ℚ × String :=
  match detail.price with
  | none => (0, "invalid-price")
  | some p =>
    if p < 0 then (0, "invalid-price")
    else if 0 < inventory.rest then
      let score₁ := cfg.inStockWeight
      let reasons₁ : List String := ["in-stock"]
      let score₂ :=
        if cfg.highStockThreshold ≤ inventory.rest then score₁ + cfg.highStockWeight else score₁
      let reasons₂ :=
        if cfg.highStockThreshold ≤ inventory.rest then reasons₁ ++ ["high-stock"] else reasons₁
      let score₃ :=
        if 0 < inventory.rest ∧ inventory.rest ≤ cfg.lowStockThreshold then
          score₂ + cfg.lowStockWeight else score₂
      let reasons₃ :=
        if 0 < inventory.rest ∧ inventory.rest ≤ cfg.lowStockThreshold then
          reasons₂ ++ ["low-stock"] else reasons₂
      let score₄ :=
        if cfg.highValueThreshold ≤ p then score₃ + cfg.highValueWeight else score₃
      let reasons₄ :=
        if cfg.highValueThreshold ≤ p then reasons₃ ++ ["high-value"] else reasons₃
      (score₄, String.intercalate ", " reasons₄)
    else (0, "out-of-stock")

end PriorityScorer

/-- C10: `PriorityScorer.calculatePriority` returns `(0, "invalid-price")` when
the price is absent or not a non-negative (finite) number; `(0, "out-of-stock")`
when the price is valid and the quantity is 0; and otherwise `inStockWeight`
plus the high-stock bonus when `rest ≥ highStockThreshold`, plus the low-stock
bonus when `rest ≤ lowStockThreshold`, plus the high-value bonus when
`price ≥ highValueThreshold`.  Quantities delivered by the Fina inventory
endpoint are non-negative, whence the hypothesis. -/
theorem calculatePriority_matches_spec
    (cfg : PriorityScorer.PriorityConfig) (inv : FinaInventoryItem)
    (detail : FinaProductDetail) (hrest : 0 ≤ inv.rest) :
    ((detail.price = none ∨ ∃ p, detail.price = some p ∧ p < 0) →
        PriorityScorer.calculatePriority cfg inv detail = (0, "invalid-price")) ∧
    (∀ p, detail.price = some p → 0 ≤ p → inv.rest = 0 →
        PriorityScorer.calculatePriority cfg inv detail = (0, "out-of-stock")) ∧
    (∀ p, detail.price = some p → 0 ≤ p → inv.rest ≠ 0 →
        (PriorityScorer.calculatePriority cfg inv detail).1 =
          cfg.inStockWeight +
          (if cfg.highStockThreshold ≤ inv.rest then cfg.highStockWeight else 0) +
          (if inv.rest ≤ cfg.lowStockThreshold then cfg.lowStockWeight else 0) +
          (if cfg.highValueThreshold ≤ p then cfg.highValueWeight else 0)) := by
  refine ⟨?_, ?_, ?_⟩
  · rintro (hnone | ⟨p, hp, hneg⟩)
    · simp [PriorityScorer.calculatePriority, hnone]
    · simp [PriorityScorer.calculatePriority, hp, hneg]
  · intro p hp hpos hzero
    have : ¬ p < 0 := not_lt.mpr hpos
    simp [PriorityScorer.calculatePriority, hp, this, hzero]
  · intro p hp hpos hne
    have hplt : ¬ p < 0 := not_lt.mpr hpos
    have hrpos : 0 < inv.rest := lt_of_le_of_ne hrest (Ne.symm hne)
    simp only [PriorityScorer.calculatePriority, hp, hplt, if_false, hrpos, if_true, ite_and,
      hrpos]
    by_cases h₂ : cfg.highStockThreshold ≤ inv.rest <;>
      by_cases h₃ : inv.rest ≤ cfg.lowStockThreshold <;>
      by_cases h₄ : cfg.highValueThreshold ≤ p <;>
      simp [h₂, h₃, h₄, hrpos]

/-- Witness for C10 at a concrete input: quantity 60, price 60 under the
default weights scores 100 + 20 + 0 + 15 = 135. -/
theorem calculatePriority_matches_spec_witness :
    (PriorityScorer.calculatePriority PriorityScorer.defaultConfig
        ⟨1, 60, 2⟩ ⟨1, "item", some 60, []⟩).1 = 135 := by
  have h := calculatePriority_matches_spec PriorityScorer.defaultConfig
    ⟨1, 60, 2⟩ ⟨1, "item", some 60, []⟩ (by norm_num)
  have h3 := h.2.2 60 rfl (by norm_num) (by norm_num)
  rw [h3]
  norm_num [PriorityScorer.defaultConfig]

namespace FinaAdapter

/-- `FinaAdapter.mapToWoltSku`: build the `finaId → SKU` map by scanning every
detail's `add_fields` for the first `usr_column_514` pair with a truthy
(non-empty) value; later products with the same id overwrite earlier ones. -/
def mapToWoltSku (details : List FinaProductDetail) : List (ℕ × String) :=
  details.foldl
    (fun m product =>
      match product.add_fields.find? (fun f => f.field = "usr_column_514") with
      | some woltField => if woltField.value ≠ "" then nlistSet m product.id woltField.value else m
      | none => m)
    []

end FinaAdapter

namespace PriorityScorer

/-- `PriorityScoredItem`: the scored candidate rows built by `scoreAndSort`.
`price` carries `detail.price`, so it may be `undefined`. -/
structure PriorityScoredItem where
  id : ℕ
  rest : ℚ
  price : Option ℚ
  woltSku : String
  priority : ℚ
  reason : String
deriving Repr, DecidableEq

/-- The scoring loop of `scoreAndSort`: for each inventory row, look up the
detail (`new Map(details.map(d => [d.id, d]))`, later entries overwriting) and
the SKU; skip rows lacking either; score the pair. -/
def scoreItems (cfg : PriorityConfig) (detailMap : List (ℕ × FinaProductDetail))
    (skuMap : List (ℕ × String)) : List FinaInventoryItem → List PriorityScoredItem
  | [] => []
  | item :: rest =>
    match nlistGet detailMap item.id with
    | none => scoreItems cfg detailMap skuMap rest
    | some detail =>
      match nlistGet skuMap item.id with
      | none => scoreItems cfg detailMap skuMap rest
      | some woltSku =>
        let scored := calculatePriority cfg item detail
        { id := item.id, rest := item.rest, price := detail.price, woltSku := woltSku,
          priority := scored.1, reason := scored.2 } ::
          scoreItems cfg detailMap skuMap rest

/-- Stable descending insertion used to model
`scored.sort((a, b) => b.priority - a.priority)`: JS `Array.prototype.sort` is
specified stable, and a stable insertion sort realizes exactly that observable
ordering. -/
def insertByPriority (x : PriorityScoredItem) :
    List PriorityScoredItem → List PriorityScoredItem
  | [] => [x]
  | y :: t => if x.priority < y.priority then y :: insertByPriority x t else x :: y :: t

/-- Stable sort by descending `priority`. -/
def sortByPriority (l : List PriorityScoredItem) : List PriorityScoredItem :=
  l.foldr insertByPriority []

/-- `PriorityScorer.scoreAndSort`. -/
def scoreAndSort (cfg : PriorityConfig) (inventory : List FinaInventoryItem)
    (details : List FinaProductDetail) (finaIdToWoltSku : List (ℕ × String)) :
    List PriorityScoredItem :=
  let detailMap := details.foldl (fun m d => nlistSet m d.id d) []
  sortByPriority (scoreItems cfg detailMap skuMap inventory)
where skuMap := finaIdToWoltSku

/-- `PriorityScorer.getTopPriority`: drop every score-0 row, then take the
first `limit` of the remaining (already sorted) rows. -/
def getTopPriority (scoredItems : List PriorityScoredItem) (limit : ℕ) :
    List PriorityScoredItem :=
  let validItems := scoredItems.filter (fun item => 0 < item.priority)
  if validItems.isEmpty then []
  else validItems.take limit

end PriorityScorer

namespace HybridSync

open PriorityScorer

/-- The payload-building loop of `HybridSyncOrchestrator.prioritySync`
(lines 258–298): skip rows with a falsy SKU; with a valid price emit the normal
pair of updates, otherwise emit `enabled=false, price=0` and `inventory=0`.
Returns (itemUpdates, inventoryUpdates, syncedSkus). -/
def buildPriorityUpdates :
    List PriorityScoredItem → List WoltItemUpdate × List WoltInventoryItem × List String
  | [] => ([], [], [])
  | item :: rest =>
    if item.woltSku = "" then buildPriorityUpdates rest
    else
      let tail := buildPriorityUpdates rest
      let hasValidPrice : Bool :=
        match item.price with
        | some p => decide (0 ≤ p)
        | none => false
      if hasValidPrice then
        ({ sku := item.woltSku, enabled := some (decide (0 < item.rest)), price := item.price }
            :: tail.1,
         { sku := item.woltSku, inventory := item.rest } :: tail.2.1,
         item.woltSku :: tail.2.2)
      else
        ({ sku := item.woltSku, enabled := some false, price := some 0 } :: tail.1,
         { sku := item.woltSku, inventory := 0 } :: tail.2.1,
         item.woltSku :: tail.2.2)

/-- The update arrays pushed by the priority-sync phase: score every
(inventory, detail) pair, take the top `limit` by `getTopPriority`, and build
the two-phase payloads. -/
def prioritySyncUpdates (cfg : PriorityConfig) (inventory : List FinaInventoryItem)
    (details : List FinaProductDetail) (limit : ℕ) :
    List WoltItemUpdate × List WoltInventoryItem :=
  let finaIdToWoltSku := FinaAdapter.mapToWoltSku details
  let scoredItems := scoreAndSort cfg inventory details finaIdToWoltSku
  let topItems := getTopPriority scoredItems limit
  let built := buildPriorityUpdates topItems
  (built.1, built.2.1)

end HybridSync

namespace SyncEngine

/-- `SyncOptions` of `SyncEngine.runWithOptions`. -/
structure SyncOptions where
  dryRun : Bool
  limit : Option ℕ
  forceFullSync : Bool
  bootstrapState : Bool
deriving Repr, DecidableEq

/-- JS truthiness of the optional numeric `limit` (`0` and `undefined` are
falsy), the test used by `if (dryRun || limit)` and `if (!limit)`. -/
def limitTruthy : Option ℕ → Bool
  | none => false
  | some n => decide (n ≠ 0)

/-- One value of the per-run `woltData` map:
`{ quantity, price, enabled }`. -/
structure WoltDataEntry where
  quantity : ℚ
  price : Option ℚ
  enabled : Bool
deriving Repr, DecidableEq

/-- The observable I/O of a run, in program order: marketplace pushes (one per
batch, per endpoint) and state-file writes. -/
inductive Effect where
  | pushItems (batch : List WoltItemUpdate)
  | pushInventory (batch : List WoltInventoryItem)
  | saveState (state : SyncStateA)
deriving Repr, DecidableEq

inductive SyncOutcome where
  | success
  | skippedDisabled
  | abortedEmptyInventory
  | abortedShortDetails
deriving Repr, DecidableEq

/-- What a run produces: its outcome, the two update arrays (after the limit
cap), the computed new state map, and the effect trace. -/
structure RunResult where
  outcome : SyncOutcome
  itemUpdates : List WoltItemUpdate
  inventoryUpdates : List WoltInventoryItem
  newState : SyncStateA
  effects : List Effect
deriving Repr, DecidableEq

/-- One iteration of the `woltData`-building loop (sync.ts lines 142–161):
skip products without a SKU; `quantity = stockMap.get(id) || 0`;
first occurrence of a SKU inserts `{quantity, price, enabled: quantity > 0}`,
later occurrences add quantities, overwrite the price (last wins) and
recompute `enabled` from the aggregate. -/
def woltDataStep (stockMap : List (ℕ × ℚ)) (finaIdToWoltSku : List (ℕ × String))
    (m : List (String × WoltDataEntry)) (product : FinaProductDetail) :
    List (String × WoltDataEntry) :=
  match nlistGet finaIdToWoltSku product.id with
  | none => m
  | some woltSku =>
    let quantity := (nlistGet stockMap product.id).getD 0
    match alistGet m woltSku with
    | none =>
      alistSet m woltSku
        { quantity := quantity, price := product.price, enabled := decide (0 < quantity) }
    | some existing =>
      alistSet m woltSku
        { quantity := existing.quantity + quantity, price := product.price,
          enabled := decide (0 < existing.quantity + quantity) }

/-- The `woltData` map of a run. -/
def buildWoltData (details : List FinaProductDetail) (stockMap : List (ℕ × ℚ))
    (finaIdToWoltSku : List (ℕ × String)) : List (String × WoltDataEntry) :=
  details.foldl (woltDataStep stockMap finaIdToWoltSku) []

/-- The per-SKU part of the change-detection loop (sync.ts lines 169–202),
iterating `woltData` in insertion order.  Returns
(inventoryUpdates, itemUpdates, newState), each in emission order. -/
def diffWolt (previousState : SyncStateA) (force bootstrap : Bool) (now : ℚ) :
    List (String × WoltDataEntry) →
    List WoltInventoryItem × List WoltItemUpdate × SyncStateA
  | [] => ([], [], [])
  | (sku, data) :: rest =>
    let tail := diffWolt previousState force bootstrap now rest
    let entry : StateEntry :=
      { quantity := data.quantity, enabled := data.enabled, price := data.price, lastSeen := now }
    let ns := (sku, entry) :: tail.2.2
    if force && !bootstrap then
      ({ sku := sku, inventory := data.quantity } :: tail.1,
       { sku := sku, enabled := some data.enabled, price := data.price } :: tail.2.1,
       ns)
    else
      match alistGet previousState sku with
      | none =>
        if bootstrap then (tail.1, tail.2.1, ns)
        else
          ({ sku := sku, inventory := data.quantity } :: tail.1,
           { sku := sku, enabled := some data.enabled, price := data.price } :: tail.2.1,
           ns)
      | some prev =>
        (if prev.quantity ≠ data.quantity then
            { sku := sku, inventory := data.quantity } :: tail.1
          else tail.1,
         if prev.enabled ≠ data.enabled ∨ prev.price ≠ data.price then
            { sku := sku, enabled := some data.enabled, price := data.price } :: tail.2.1
          else tail.2.1,
         ns)

/-- The missing-SKU loop (sync.ts lines 205–215), iterating the previous state
in key order: a SKU absent from `woltData` gets `inventory = 0`,
`enabled = false` (no price field) and a state entry
`{0, false, prev.price}`; in bootstrap mode only the state rewrite happens. -/
def diffMissing (woltData : List (String × WoltDataEntry)) (bootstrap : Bool) (now : ℚ) :
    SyncStateA → List WoltInventoryItem × List WoltItemUpdate × SyncStateA
  | [] => ([], [], [])
  | (sku, prev) :: rest =>
    let tail := diffMissing woltData bootstrap now rest
    match alistGet woltData sku with
    | some _ => tail
    | none =>
      ((if bootstrap then tail.1 else { sku := sku, inventory := 0 } :: tail.1),
       (if bootstrap then tail.2.1
        else { sku := sku, enabled := some false, price := none } :: tail.2.1),
       (sku, { quantity := 0, enabled := false, price := prev.price, lastSeen := now })
         :: tail.2.2)

/-- Steps 4–5 of the run combined: change detection plus missing-SKU
detection. -/
def diffStage (previousState : SyncStateA) (woltData : List (String × WoltDataEntry))
    (force bootstrap : Bool) (now : ℚ) :
    List WoltInventoryItem × List WoltItemUpdate × SyncStateA :=
  let w := diffWolt previousState force bootstrap now woltData
  let m := diffMissing woltData bootstrap now previousState
  (w.1 ++ m.1, w.2.1 ++ m.2.1, w.2.2 ++ m.2.2)

/-- The `updateSyncedState` helper: copy the batch's entries from the run's
`newState` into the in-memory `previousState` copy, which is then saved. -/
def applyConfirm (newState : SyncStateA) (confirmed : SyncStateA) (skus : List String) :
    SyncStateA :=
  skus.foldl
    (fun acc sku =>
      match alistGet newState sku with
      | some current => alistSet acc sku current
      | none => acc)
    confirmed

/-- One push phase: slice the update array into batches of `batchSize`, and
for each batch emit the push and, when state persistence is active
(`!dryRun && !limit`), the partial-state save that follows it.  `fuel` is a
structural-termination device; it is always called with
`fuel = updates.length`, which suffices because batch sizes are positive
(`resolveBatchConfig` only yields positive sizes and `initConfig` positive
defaults). -/
def pushPhase {υ : Type} (mk : List υ → Effect) (skuOf : υ → String) (batchSize : ℕ)
    (doSave : Bool) (newState : SyncStateA) :
    ℕ → List υ → SyncStateA → List Effect × SyncStateA
  | _, [], confirmed => ([], confirmed)
  | 0, _ :: _, confirmed => ([], confirmed)
  | fuel + 1, u :: us, confirmed =>
    if batchSize = 0 then ([], confirmed)
    else
      let batch := (u :: us).take batchSize
      let confirmed₁ := applyConfirm newState confirmed (batch.map skuOf)
      let tail := pushPhase mk skuOf batchSize doSave newState fuel ((u :: us).drop batchSize)
        confirmed₁
      (mk batch :: (if doSave then Effect.saveState confirmed₁ :: tail.1 else tail.1), tail.2)

/-- `SyncEngine.runWithOptions`, as a function from the run's inputs (loaded
previous state, fetched inventory and details) to its `RunResult`.  `now` is
the single `Date.now()` read in step 4, `batchSize` the value produced by
`resolveBatchConfig`. -/
def runWithOptions (storeEnabled : Bool) (options : SyncOptions)
    (previousState : SyncStateA) (inventory : List FinaInventoryItem)
    (details : List FinaProductDetail) (now : ℚ) (batchSize : ℕ) : RunResult :=
  if !storeEnabled then
    { outcome := .skippedDisabled, itemUpdates := [], inventoryUpdates := [],
      newState := [], effects := [] }
  else
    let isFirstSync := previousState.isEmpty
    let forceFullSync :=
      options.forceFullSync ||
        (isFirstSync && !options.forceFullSync && !options.bootstrapState)
    if inventory.isEmpty then
      { outcome := .abortedEmptyInventory, itemUpdates := [], inventoryUpdates := [],
        newState := [], effects := [] }
    else if details.length < inventory.length then
      { outcome := .abortedShortDetails, itemUpdates := [], inventoryUpdates := [],
        newState := [], effects := [] }
    else
      let stockMap := inventory.foldl (fun m i => nlistSet m i.id i.rest) []
      let finaIdToWoltSku := FinaAdapter.mapToWoltSku details
      let woltData := buildWoltData details stockMap finaIdToWoltSku
      let diffed := diffStage previousState woltData forceFullSync options.bootstrapState now
      let inventoryUpdates₀ := diffed.1
      let itemUpdates₀ := diffed.2.1
      let newState := diffed.2.2
      if options.bootstrapState then
        { outcome := .success, itemUpdates := itemUpdates₀,
          inventoryUpdates := inventoryUpdates₀, newState := newState,
          effects := if options.dryRun then [] else [Effect.saveState newState] }
      else
        let itemUpdates :=
          match options.limit with
          | some n => if 0 < n then itemUpdates₀.take n else itemUpdates₀
          | none => itemUpdates₀
        let inventoryUpdates :=
          match options.limit with
          | some n => if 0 < n then inventoryUpdates₀.take n else inventoryUpdates₀
          | none => inventoryUpdates₀
        if options.dryRun then
          { outcome := .success, itemUpdates := itemUpdates,
            inventoryUpdates := inventoryUpdates, newState := newState, effects := [] }
        else
          let doSave := !limitTruthy options.limit
          let phase₁ := pushPhase Effect.pushItems (fun u => u.sku) batchSize doSave newState
            itemUpdates.length itemUpdates previousState
          let phase₂ := pushPhase Effect.pushInventory (fun u => u.sku) batchSize doSave newState
            inventoryUpdates.length inventoryUpdates phase₁.2
          { outcome := .success, itemUpdates := itemUpdates,
            inventoryUpdates := inventoryUpdates, newState := newState,
            effects := phase₁.1 ++ phase₂.1 ++
              (if doSave then [Effect.saveState newState] else []) }

end SyncEngine

theorem alistGet_eq_none_iff {β : Type} (l : List (String × β)) (k : String) :
    alistGet l k = none ↔ k ∉ l.map Prod.fst := by
  induction l with
  | nil => simp [alistGet]
  | cons p t ih =>
    obtain ⟨k₁, v₁⟩ := p
    by_cases h : k₁ = k <;> simp [alistGet, h, ih, Ne.symm]

theorem mem_alistSet {β : Type} (l : List (String × β)) (k : String) (v : β)
    (q : String × β) (hq : q ∈ alistSet l k v) : q = (k, v) ∨ q ∈ l := by
  induction l with
  | nil => simpa [alistSet] using hq
  | cons p t ih =>
    obtain ⟨k₁, v₁⟩ := p
    by_cases h : k₁ = k
    · subst h
      simp only [alistSet, if_pos] at hq
      rcases List.mem_cons.mp hq with hq₁ | hq₁
      · exact Or.inl hq₁
      · exact Or.inr (List.mem_cons_of_mem _ hq₁)
    · simp only [alistSet, h, if_false, List.mem_cons] at hq
      rcases hq with hq₁ | hq₁
      · exact Or.inr (List.mem_cons.mpr (Or.inl hq₁))
      · rcases ih hq₁ with h₁ | h₁
        · exact Or.inl h₁
        · exact Or.inr (List.mem_cons_of_mem _ h₁)

theorem alistGet_append {β : Type} (a b : List (String × β)) (k : String) :
    alistGet (a ++ b) k = ((alistGet a k).rec (alistGet b k) fun v => some v) := by
  induction a with
  | nil => simp [alistGet]
  | cons p t ih =>
    obtain ⟨k₁, v₁⟩ := p
    by_cases h : k₁ = k <;> simp [alistGet, h, ih]

theorem alistGet_of_mem {β : Type} (l : List (String × β)) (k : String) (v : β)
    (h : (k, v) ∈ l) : ∃ w, alistGet l k = some w := by
  induction l with
  | nil => cases h
  | cons p t ih =>
    obtain ⟨k₁, v₁⟩ := p
    by_cases hk : k₁ = k
    · exact ⟨v₁, by simp [alistGet, hk]⟩
    · rcases List.mem_cons.mp h with h₁ | h₁
      · rw [Prod.mk.injEq] at h₁
        exact absurd h₁.1.symm hk
      · simpa [alistGet, hk] using ih h₁

theorem alistGet_mem {β : Type} (l : List (String × β)) (k : String) (v : β)
    (h : alistGet l k = some v) : (k, v) ∈ l := by
  induction l with
  | nil => simp [alistGet] at h
  | cons p t ih =>
    obtain ⟨k₁, v₁⟩ := p
    by_cases hk : k₁ = k
    · subst hk
      simp [alistGet] at h
      subst h
      exact List.mem_cons_self _ _
    · simp only [alistGet, hk, if_false] at h
      exact List.mem_cons_of_mem _ (ih h)

theorem mem_of_nodup_get {β : Type} (l : List (String × β)) (k : String) (v : β)
    (hnd : (l.map Prod.fst).Nodup) (h : (k, v) ∈ l) : alistGet l k = some v := by
  induction l with
  | nil => cases h
  | cons p t ih =>
    obtain ⟨k₁, v₁⟩ := p
    simp only [List.map_cons, List.nodup_cons] at hnd
    rcases List.mem_cons.mp h with h₁ | h₁
    · rw [Prod.mk.injEq] at h₁
      obtain ⟨hk, hv⟩ := h₁
      subst hk; subst hv
      simp [alistGet]
    · have hk : k₁ ≠ k := by
        intro he
        exact hnd.1 (he ▸ List.mem_map_of_mem Prod.fst h₁)
      simp [alistGet, hk, ih hnd.2 h₁]

namespace SyncEngine

/-- The decision, in a non-bootstrap run, whether the change-detection loop
emits an inventory update for a SKU of the view. -/
def invEmit (previousState : SyncStateA) (force : Bool) (sku : String)
    (data : WoltDataEntry) : Bool :=
  if force then true
  else
    match alistGet previousState sku with
    | none => true
    | some prev => decide (prev.quantity ≠ data.quantity)

/-- The decision, in a non-bootstrap run, whether the change-detection loop
emits an item update for a SKU of the view. -/
def itemEmit (previousState : SyncStateA) (force : Bool) (sku : String)
    (data : WoltDataEntry) : Bool :=
  if force then true
  else
    match alistGet previousState sku with
    | none => true
    | some prev => decide (prev.enabled ≠ data.enabled ∨ prev.price ≠ data.price)

/-- Closed form of the per-SKU loop in a non-bootstrap run. -/
theorem diffWolt_eq (previousState : SyncStateA) (force : Bool) (now : ℚ)
    (w : List (String × WoltDataEntry)) :
    diffWolt previousState force false now w =
      (w.filterMap (fun p =>
          if invEmit previousState force p.1 p.2 then
            some { sku := p.1, inventory := p.2.quantity } else none),
       w.filterMap (fun p =>
          if itemEmit previousState force p.1 p.2 then
            some { sku := p.1, enabled := some p.2.enabled, price := p.2.price } else none),
       w.map (fun p =>
          (p.1, { quantity := p.2.quantity, enabled := p.2.enabled, price := p.2.price,
                  lastSeen := now }))) := by
  induction w with
  | nil => simp [diffWolt]
  | cons p rest ih =>
    obtain ⟨sku, data⟩ := p
    cases force with
    | true => simp [diffWolt, ih, invEmit, itemEmit]
    | false =>
      cases hprev : alistGet previousState sku with
      | none => simp [diffWolt, ih, invEmit, itemEmit, hprev]
      | some pe =>
        by_cases hq : pe.quantity ≠ data.quantity <;>
          by_cases hi : pe.enabled ≠ data.enabled ∨ pe.price ≠ data.price <;>
          simp [diffWolt, ih, invEmit, itemEmit, hprev, hq, hi]

/-- Closed form of the missing-SKU loop in a non-bootstrap run. -/
theorem diffMissing_eq (w : List (String × WoltDataEntry)) (now : ℚ)
    (previousState : SyncStateA) :
    diffMissing w false now previousState =
      (previousState.filterMap (fun p =>
          if alistGet w p.1 = none then some { sku := p.1, inventory := 0 } else none),
       previousState.filterMap (fun p =>
          if alistGet w p.1 = none then
            some { sku := p.1, enabled := some false, price := none } else none),
       previousState.filterMap (fun p =>
          if alistGet w p.1 = none then
            some (p.1, { quantity := 0, enabled := false, price := p.2.price,
                         lastSeen := now }) else none)) := by
  induction previousState with
  | nil => simp [diffMissing]
  | cons p rest ih =>
    obtain ⟨sku, pe⟩ := p
    cases hw : alistGet w sku with
    | none => simp [diffMissing, ih, hw]
    | some d => simp [diffMissing, ih, hw]

end SyncEngine

/-- In a Nodup-keyed previous state, the rewritten entry of a missing SKU is
found at its key in the missing-part of the new state. -/
theorem alistGet_missing_newState (w : List (String × SyncEngine.WoltDataEntry)) (now : ℚ)
    (prev : SyncStateA) (hp : (prev.map Prod.fst).Nodup) (sku : String) (pe : StateEntry)
    (hmem : (sku, pe) ∈ prev) (hnone : alistGet w sku = none) :
    alistGet (prev.filterMap (fun p =>
        if alistGet w p.1 = none then
          some (p.1, ({ quantity := 0, enabled := false, price := p.2.price,
                        lastSeen := now } : StateEntry)) else none)) sku =
      some ({ quantity := 0, enabled := false, price := pe.price,
              lastSeen := now } : StateEntry) := by
  induction prev with
  | nil => cases hmem
  | cons p rest ih =>
    obtain ⟨k, e⟩ := p
    simp only [List.map_cons, List.nodup_cons] at hp
    by_cases hk : k = sku
    · subst hk
      have he : e = pe := by
        rcases List.mem_cons.mp hmem with h₁ | h₁
        · exact (Prod.mk.injEq .. ▸ h₁).2.symm
        · exact absurd (List.mem_map_of_mem Prod.fst h₁) hp.1
      subst he
      simp [List.filterMap_cons, hnone, alistGet]
    · have hmem₁ : (sku, pe) ∈ rest := by
        rcases List.mem_cons.mp hmem with h₁ | h₁
        · exact absurd (Prod.mk.injEq .. ▸ h₁).1.symm hk
        · exact h₁
      cases hcond : alistGet w k with
      | none => simp [List.filterMap_cons, hcond, alistGet, hk, ih hp.2 hmem₁]
      | some d => simp [List.filterMap_cons, hcond, alistGet, ih hp.2 hmem₁]

/-- C3: in a non-bootstrap run the diff stage emits exactly the spec's updates:
a SKU absent from previous state gets both updates; an existing SKU gets an
inventory update iff its quantity changed and an item update iff its enabled
flag or price changed; in force-full mode every SKU of the view gets both
updates; a previous-state SKU absent from the view gets `inventory = 0` and
`enabled = false` and its state entry is rewritten to
`{0, false, prev.price}`; and no other update is emitted. -/
theorem diffStage_matches_spec
    (previousState : SyncStateA) (woltData : List (String × SyncEngine.WoltDataEntry))
    (force : Bool) (now : ℚ)
    (hw : (woltData.map Prod.fst).Nodup) (hp : (previousState.map Prod.fst).Nodup) :
    (∀ sku data, (sku, data) ∈ woltData →
        (force = true ∨ alistGet previousState sku = none) →
        ({ sku := sku, inventory := data.quantity } : WoltInventoryItem) ∈
            (SyncEngine.diffStage previousState woltData force false now).1 ∧
          ({ sku := sku, enabled := some data.enabled, price := data.price } :
              WoltItemUpdate) ∈
            (SyncEngine.diffStage previousState woltData force false now).2.1) ∧
    (force = false →
      ∀ sku data prev, (sku, data) ∈ woltData →
        alistGet previousState sku = some prev →
        (({ sku := sku, inventory := data.quantity } : WoltInventoryItem) ∈
            (SyncEngine.diffStage previousState woltData force false now).1 ↔
          prev.quantity ≠ data.quantity) ∧
        (({ sku := sku, enabled := some data.enabled, price := data.price } :
              WoltItemUpdate) ∈
            (SyncEngine.diffStage previousState woltData force false now).2.1 ↔
          (prev.enabled ≠ data.enabled ∨ prev.price ≠ data.price))) ∧
    (∀ sku prev, (sku, prev) ∈ previousState → alistGet woltData sku = none →
        ({ sku := sku, inventory := 0 } : WoltInventoryItem) ∈
            (SyncEngine.diffStage previousState woltData force false now).1 ∧
          ({ sku := sku, enabled := some false, price := none } : WoltItemUpdate) ∈
            (SyncEngine.diffStage previousState woltData force false now).2.1 ∧
          alistGet (SyncEngine.diffStage previousState woltData force false now).2.2 sku =
            some { quantity := 0, enabled := false, price := prev.price, lastSeen := now }) ∧
    (∀ u ∈ (SyncEngine.diffStage previousState woltData force false now).1,
        (∃ data, (u.sku, data) ∈ woltData ∧ u.inventory = data.quantity) ∨
          (u.inventory = 0 ∧ alistGet woltData u.sku = none ∧
            u.sku ∈ previousState.map Prod.fst)) ∧
    (∀ u ∈ (SyncEngine.diffStage previousState woltData force false now).2.1,
        (∃ data, (u.sku, data) ∈ woltData ∧ u.enabled = some data.enabled ∧
            u.price = data.price) ∨
          (u.enabled = some false ∧ u.price = none ∧ alistGet woltData u.sku = none ∧
            u.sku ∈ previousState.map Prod.fst)) := by
  have hds : SyncEngine.diffStage previousState woltData force false now =
      ((SyncEngine.diffWolt previousState force false now woltData).1 ++
        (SyncEngine.diffMissing woltData false now previousState).1,
       (SyncEngine.diffWolt previousState force false now woltData).2.1 ++
        (SyncEngine.diffMissing woltData false now previousState).2.1,
       (SyncEngine.diffWolt previousState force false now woltData).2.2 ++
        (SyncEngine.diffMissing woltData false now previousState).2.2) := rfl
  rw [hds, SyncEngine.diffWolt_eq, SyncEngine.diffMissing_eq]
  simp only []
  refine ⟨?_, ?_, ?_, ?_, ?_⟩
  · intro sku data hmem hcond
    constructor
    · apply List.mem_append_left
      apply List.mem_filterMap.mpr
      refine ⟨(sku, data), hmem, ?_⟩
      have : SyncEngine.invEmit previousState force sku data = true := by
        rcases hcond with hc | hc
        · simp [SyncEngine.invEmit, hc]
        · cases force <;> simp [SyncEngine.invEmit, hc]
      simp [this]
    · apply List.mem_append_left
      apply List.mem_filterMap.mpr
      refine ⟨(sku, data), hmem, ?_⟩
      have : SyncEngine.itemEmit previousState force sku data = true := by
        rcases hcond with hc | hc
        · simp [SyncEngine.itemEmit, hc]
        · cases force <;> simp [SyncEngine.itemEmit, hc]
      simp [this]
  · rintro rfl sku data prev hmem hprev
    have hget : alistGet woltData sku = some data := mem_of_nodup_get _ _ _ hw hmem
    constructor
    · constructor
      · intro hin
        rcases List.mem_append.mp hin with hin | hin
        · rcases List.mem_filterMap.mp hin with ⟨⟨sku₁, data₁⟩, hmem₁, hval⟩
          by_cases he : SyncEngine.invEmit previousState false sku₁ data₁ = true
          · simp only [he, if_true, Option.some.injEq] at hval
            have hsku : sku₁ = sku := congrArg WoltInventoryItem.sku hval
            subst hsku
            have : data₁ = data := by
              have h₁ := mem_of_nodup_get _ _ _ hw hmem₁
              rw [hget] at h₁
              exact (Option.some.injEq .. ▸ h₁).symm
            subst this
            simpa [SyncEngine.invEmit, hprev] using he
          · simp [he] at hval
        · rcases List.mem_filterMap.mp hin with ⟨⟨sku₁, pe₁⟩, hmem₁, hval⟩
          by_cases hc : alistGet woltData sku₁ = none
          · simp only [hc, if_true, Option.some.injEq] at hval
            have hsku : sku₁ = sku := congrArg WoltInventoryItem.sku hval
            subst hsku
            rw [hget] at hc
            cases hc
          · simp [hc] at hval
      · intro hne
        apply List.mem_append_left
        apply List.mem_filterMap.mpr
        refine ⟨(sku, data), hmem, ?_⟩
        simp [SyncEngine.invEmit, hprev, hne]
    · constructor
      · intro hin
        rcases List.mem_append.mp hin with hin | hin
        · rcases List.mem_filterMap.mp hin with ⟨⟨sku₁, data₁⟩, hmem₁, hval⟩
          by_cases he : SyncEngine.itemEmit previousState false sku₁ data₁ = true
          · simp only [he, if_true, Option.some.injEq] at hval
            have hsku : sku₁ = sku := congrArg WoltItemUpdate.sku hval
            subst hsku
            have : data₁ = data := by
              have h₁ := mem_of_nodup_get _ _ _ hw hmem₁
              rw [hget] at h₁
              exact (Option.some.injEq .. ▸ h₁).symm
            subst this
            simpa [SyncEngine.itemEmit, hprev] using he
          · simp [he] at hval
        · rcases List.mem_filterMap.mp hin with ⟨⟨sku₁, pe₁⟩, hmem₁, hval⟩
          by_cases hc : alistGet woltData sku₁ = none
          · simp only [hc, if_true, Option.some.injEq] at hval
            have hsku : sku₁ = sku := congrArg WoltItemUpdate.sku hval
            subst hsku
            rw [hget] at hc
            cases hc
          · simp [hc] at hval
      · intro hne
        apply List.mem_append_left
        apply List.mem_filterMap.mpr
        refine ⟨(sku, data), hmem, ?_⟩
        simp [SyncEngine.itemEmit, hprev, hne]
  · intro sku prev hmem hnone
    refine ⟨?_, ?_, ?_⟩
    · apply List.mem_append_right
      apply List.mem_filterMap.mpr
      exact ⟨(sku, prev), hmem, by simp [hnone]⟩
    · apply List.mem_append_right
      apply List.mem_filterMap.mpr
      exact ⟨(sku, prev), hmem, by simp [hnone]⟩
    · rw [alistGet_append]
      have hw₁ : alistGet (woltData.map (fun p =>
          (p.1, ({ quantity := p.2.quantity, enabled := p.2.enabled, price := p.2.price,
                   lastSeen := now } : StateEntry)))) sku = none := by
        rw [alistGet_eq_none_iff] at hnone ⊢
        simpa using hnone
      rw [hw₁]
      exact alistGet_missing_newState woltData now previousState hp sku prev hmem hnone
  · intro u hu
    rcases List.mem_append.mp hu with hin | hin
    · rcases List.mem_filterMap.mp hin with ⟨⟨sku₁, data₁⟩, hmem₁, hval⟩
      by_cases he : SyncEngine.invEmit previousState force sku₁ data₁ = true
      · simp only [he, if_true, Option.some.injEq] at hval
        subst hval
        exact Or.inl ⟨data₁, hmem₁, rfl⟩
      · simp [he] at hval
    · rcases List.mem_filterMap.mp hin with ⟨⟨sku₁, pe₁⟩, hmem₁, hval⟩
      by_cases hc : alistGet woltData sku₁ = none
      · simp only [hc, if_true, Option.some.injEq] at hval
        subst hval
        exact Or.inr ⟨rfl, hc, List.mem_map_of_mem Prod.fst hmem₁⟩
      · simp [hc] at hval
  · intro u hu
    rcases List.mem_append.mp hu with hin | hin
    · rcases List.mem_filterMap.mp hin with ⟨⟨sku₁, data₁⟩, hmem₁, hval⟩
      by_cases he : SyncEngine.itemEmit previousState force sku₁ data₁ = true
      · simp only [he, if_true, Option.some.injEq] at hval
        subst hval
        exact Or.inl ⟨data₁, hmem₁, rfl, rfl⟩
      · simp [he] at hval
    · rcases List.mem_filterMap.mp hin with ⟨⟨sku₁, pe₁⟩, hmem₁, hval⟩
      by_cases hc : alistGet woltData sku₁ = none
      · simp only [hc, if_true, Option.some.injEq] at hval
        subst hval
        exact Or.inr ⟨rfl, rfl, hc, List.mem_map_of_mem Prod.fst hmem₁⟩
      · simp [hc] at hval

/-- C3 witness: in a concrete delta diff, the previous-state SKU `Z` missing
from the view receives its zero-inventory update. -/
theorem diffStage_matches_spec_witness :
    ({ sku := "Z", inventory := 0 } : WoltInventoryItem) ∈
      (SyncEngine.diffStage
        [("Z", { quantity := 4, enabled := true, price := some 50, lastSeen := 0 })]
        [("A", { quantity := 5, price := some 100, enabled := true })] false false 0).1 := by
  have h := diffStage_matches_spec
    [("Z", { quantity := 4, enabled := true, price := some 50, lastSeen := 0 })]
    [("A", { quantity := 5, price := some 100, enabled := true })] false 0
    (by simp) (by simp)
  exact (h.2.2.1 "Z" { quantity := 4, enabled := true, price := some 50, lastSeen := 0 }
    (by simp) (by decide)).1

/-- C2: a run that sees an empty SoT inventory, or fewer product details than
requested ids, produces no effect at all: no marketplace push and no state
write (the guards at sync.ts lines 108–114 and 122–130 return/throw before
any update is built). -/
theorem run_guards_block_all_effects
    (storeEnabled : Bool) (options : SyncEngine.SyncOptions) (previousState : SyncStateA)
    (inventory : List FinaInventoryItem) (details : List FinaProductDetail)
    (now : ℚ) (batchSize : ℕ)
    (h : inventory = [] ∨ details.length < inventory.length) :
    (SyncEngine.runWithOptions storeEnabled options previousState inventory details now
        batchSize).effects = [] ∧
    (SyncEngine.runWithOptions storeEnabled options previousState inventory details now
        batchSize).itemUpdates = [] ∧
    (SyncEngine.runWithOptions storeEnabled options previousState inventory details now
        batchSize).inventoryUpdates = [] := by
  cases storeEnabled with
  | false => simp [SyncEngine.runWithOptions]
  | true =>
    rcases h with h | h
    · subst h
      simp [SyncEngine.runWithOptions]
    · by_cases hinv : inventory.isEmpty
      · simp [SyncEngine.runWithOptions, hinv]
      · simp [SyncEngine.runWithOptions, hinv, h]

/-- C2 witness: the empty-inventory guard at a concrete input. -/
theorem run_guards_block_all_effects_witness :
    (SyncEngine.runWithOptions true ⟨false, none, false, false⟩ [] [] [] 0 50).effects =
      [] :=
  (run_guards_block_all_effects true ⟨false, none, false, false⟩ [] [] [] 0 50
    (Or.inl rfl)).1

/-- Pushed-batch effects carry no state save. -/
theorem pushPhase_no_save {υ : Type} (mk : List υ → SyncEngine.Effect)
    (skuOf : υ → String) (batchSize : ℕ) (newState : SyncStateA)
    (hmk : ∀ b m, mk b ≠ SyncEngine.Effect.saveState m) :
    ∀ (fuel : ℕ) (updates : List υ) (confirmed : SyncStateA) (m : SyncStateA),
      SyncEngine.Effect.saveState m ∉
        (SyncEngine.pushPhase mk skuOf batchSize false newState fuel updates
          confirmed).1 := by
  intro fuel
  induction fuel with
  | zero =>
    intro updates confirmed m
    cases updates <;> simp [SyncEngine.pushPhase]
  | succ fuel ih =>
    intro updates confirmed m
    cases updates with
    | nil => simp [SyncEngine.pushPhase]
    | cons u us =>
      by_cases hb : batchSize = 0
      · simp [SyncEngine.pushPhase, hb]
      · simp only [SyncEngine.pushPhase, hb, if_false, Bool.false_eq_true, List.mem_cons,
          not_or]
        constructor
        · intro hc
          exact hmk _ _ hc.symm
        · exact ih _ _ m

/-- C8 (counterexample): in a concrete limited run (`limit = 50`, one changed
SKU) the whole effect trace is the single inventory push: the successful batch
is followed by no state save at all — `updateSyncedState` returns immediately
when `limit` is set — refuting "per-batch progress is still persisted". -/
theorem limited_run_no_progress_persisted :
    (SyncEngine.runWithOptions true ⟨false, some 50, false, false⟩
        [("A", { quantity := 10, enabled := true, price := some 100, lastSeen := 0 })]
        [⟨1, 5, 2⟩] [⟨1, "a", some 100, [⟨"usr_column_514", "A"⟩]⟩] 0 50).effects =
      [SyncEngine.Effect.pushInventory [{ sku := "A", inventory := 5 }]] := by
  decide

/-- C8 (amended): a non-bootstrap run with a positive `limit` truncates both
update arrays to at most `limit` entries and performs no state write at all —
neither the final state save (`if (!limit)`) nor the per-batch saves
(`updateSyncedState` is a no-op when `limit` is set). -/
theorem limited_run_truncates_and_never_saves
    (storeEnabled : Bool) (options : SyncEngine.SyncOptions) (previousState : SyncStateA)
    (inventory : List FinaInventoryItem) (details : List FinaProductDetail)
    (now : ℚ) (batchSize : ℕ) (n : ℕ)
    (hlim : options.limit = some n) (hn : 0 < n)
    (hboot : options.bootstrapState = false) :
    (SyncEngine.runWithOptions storeEnabled options previousState inventory details now
        batchSize).itemUpdates.length ≤ n ∧
    (SyncEngine.runWithOptions storeEnabled options previousState inventory details now
        batchSize).inventoryUpdates.length ≤ n ∧
    ∀ m, SyncEngine.Effect.saveState m ∉
      (SyncEngine.runWithOptions storeEnabled options previousState inventory details now
        batchSize).effects := by
  obtain ⟨dryRun, limit, force, boot⟩ := options
  simp only [SyncEngine.SyncOptions.limit] at hlim
  simp only [SyncEngine.SyncOptions.bootstrapState] at hboot
  subst hlim
  subst hboot
  cases storeEnabled with
  | false => simp [SyncEngine.runWithOptions]
  | true =>
    by_cases hinv : inventory.isEmpty
    · simp [SyncEngine.runWithOptions, hinv]
    · by_cases hdet : details.length < inventory.length
      · simp [SyncEngine.runWithOptions, hinv, hdet]
      · have hne : n ≠ 0 := hn.ne'
        cases dryRun with
        | true =>
          refine ⟨?_, ?_, ?_⟩ <;>
            simp [SyncEngine.runWithOptions, hinv, hdet, hn, List.length_take]
        | false =>
          have hsave : SyncEngine.limitTruthy (some n) = true := by
            simp [SyncEngine.limitTruthy, hne]
          refine ⟨?_, ?_, ?_⟩
          · simp [SyncEngine.runWithOptions, hinv, hdet, hn, List.length_take]
          · simp [SyncEngine.runWithOptions, hinv, hdet, hn, List.length_take]
          · intro m
            simp only [SyncEngine.runWithOptions, hinv, hdet, hsave, Bool.not_true,
              if_false, Bool.false_eq_true, if_true, Bool.true_eq_false, List.append_nil,
              List.mem_append, not_or]
            constructor
            · exact pushPhase_no_save _ _ _ _ (fun b m₁ => by simp) _ _ _ m
            · exact pushPhase_no_save _ _ _ _ (fun b m₁ => by simp) _ _ _ m

/-- C8 witness (amended claim at a concrete input): the limited run of the
counterexample, with `limit = 50 > 0`, has both arrays within the cap and no
save effect. -/
theorem limited_run_truncates_and_never_saves_witness :
    (SyncEngine.runWithOptions true ⟨false, some 50, false, false⟩
        [("A", { quantity := 10, enabled := true, price := some 100, lastSeen := 0 })]
        [⟨1, 5, 2⟩] [⟨1, "a", some 100, [⟨"usr_column_514", "A"⟩]⟩] 0 50).itemUpdates.length
        ≤ 50 ∧
    ∀ m, SyncEngine.Effect.saveState m ∉
      (SyncEngine.runWithOptions true ⟨false, some 50, false, false⟩
        [("A", { quantity := 10, enabled := true, price := some 100, lastSeen := 0 })]
        [⟨1, 5, 2⟩] [⟨1, "a", some 100, [⟨"usr_column_514", "A"⟩]⟩] 0 50).effects := by
  have h := limited_run_truncates_and_never_saves true ⟨false, some 50, false, false⟩
    [("A", { quantity := 10, enabled := true, price := some 100, lastSeen := 0 })]
    [⟨1, 5, 2⟩] [⟨1, "a", some 100, [⟨"usr_column_514", "A"⟩]⟩] 0 50 50
    rfl (by norm_num) rfl
  exact ⟨h.1, h.2.2⟩

namespace SyncEngine

/-- The SKUs a marketplace push confirms. -/
def pushSkus : Effect → List String
  | .pushItems b => b.map (fun u => u.sku)
  | .pushInventory b => b.map (fun u => u.sku)
  | .saveState _ => []

/-- Provenance discipline over an effect trace: every SKU of every persisted
map was either already known (`seen` starts as the previous state's keys) or
was pushed to the marketplace earlier in the trace. -/
def saveOkFrom (seen : List String) : List Effect → Prop
  | [] => True
  | Effect.saveState m :: rest => (∀ p ∈ m, p.1 ∈ seen) ∧ saveOkFrom seen rest
  | e :: rest => saveOkFrom (seen ++ pushSkus e) rest

theorem saveOkFrom_cons_push (seen : List String) (e : Effect) (rest : List Effect)
    (he : ∀ m, e ≠ Effect.saveState m) :
    saveOkFrom seen (e :: rest) ↔ saveOkFrom (seen ++ pushSkus e) rest := by
  cases e with
  | pushItems b => rfl
  | pushInventory b => rfl
  | saveState m => exact absurd rfl (he m)

theorem saveOkFrom_mono (t : List Effect) :
    ∀ seen seen₁ : List String, seen ⊆ seen₁ →
      saveOkFrom seen t → saveOkFrom seen₁ t := by
  induction t with
  | nil => intro _ _ _ _; trivial
  | cons e rest ih =>
    intro seen seen₁ hsub h
    cases e with
    | saveState m =>
      exact ⟨fun p hp => hsub (h.1 p hp), ih seen seen₁ hsub h.2⟩
    | pushItems b =>
      exact ih _ _ (fun x hx => by
        rcases List.mem_append.mp hx with hx | hx
        · exact List.mem_append_left _ (hsub hx)
        · exact List.mem_append_right _ hx) h
    | pushInventory b =>
      exact ih _ _ (fun x hx => by
        rcases List.mem_append.mp hx with hx | hx
        · exact List.mem_append_left _ (hsub hx)
        · exact List.mem_append_right _ hx) h

theorem saveOkFrom_append (t₁ t₂ : List Effect) :
    ∀ seen, saveOkFrom seen (t₁ ++ t₂) ↔
      saveOkFrom seen t₁ ∧ saveOkFrom (seen ++ t₁.flatMap pushSkus) t₂ := by
  induction t₁ with
  | nil => intro seen; simp [saveOkFrom]
  | cons e rest ih =>
    intro seen
    cases e with
    | saveState m =>
      simp [saveOkFrom, pushSkus, ih, and_assoc]
    | pushItems b =>
      simp [saveOkFrom, pushSkus, ih, List.append_assoc]
    | pushInventory b =>
      simp [saveOkFrom, pushSkus, ih, List.append_assoc]

/-- Keys present after `updateSyncedState` come from the prior confirmed map
or from the batch just pushed. -/
theorem applyConfirm_keys (newState : SyncStateA) :
    ∀ (skus : List String) (confirmed : SyncStateA) (p : String × StateEntry),
      p ∈ applyConfirm newState confirmed skus →
      p.1 ∈ confirmed.map Prod.fst ∨ p.1 ∈ skus := by
  intro skus
  induction skus with
  | nil =>
    intro confirmed p hp
    exact Or.inl (List.mem_map_of_mem Prod.fst hp)
  | cons sku rest ih =>
    intro confirmed p hp
    have hstep : applyConfirm newState confirmed (sku :: rest) =
        applyConfirm newState
          (match alistGet newState sku with
           | some current => alistSet confirmed sku current
           | none => confirmed) rest := rfl
    rw [hstep] at hp
    cases hcur : alistGet newState sku with
    | none =>
      simp only [hcur] at hp
      rcases ih confirmed p hp with h | h
      · exact Or.inl h
      · exact Or.inr (List.mem_cons_of_mem _ h)
    | some current =>
      simp only [hcur] at hp
      rcases ih (alistSet confirmed sku current) p hp with h | h
      · rcases List.mem_map.mp h with ⟨q, hq, hq₁⟩
        rcases mem_alistSet confirmed sku current q hq with h₁ | h₁
        · subst h₁
          exact Or.inr (hq₁ ▸ List.mem_cons_self _ _)
        · exact Or.inl (hq₁ ▸ List.mem_map_of_mem Prod.fst h₁)
      · exact Or.inr (List.mem_cons_of_mem _ h)

end SyncEngine

namespace SyncEngine

/-- The trace of one push phase obeys the provenance discipline whenever the
incoming confirmed map does: each partial save only records SKUs already seen
or just pushed in the batch that precedes it. -/
theorem pushPhase_saveOk {υ : Type} (mk : List υ → Effect) (skuOf : υ → String)
    (batchSize : ℕ) (doSave : Bool) (newState : SyncStateA)
    (hmk : ∀ b, pushSkus (mk b) = b.map skuOf)
    (hsave : ∀ b m, mk b ≠ Effect.saveState m) :
    ∀ (fuel : ℕ) (updates : List υ) (confirmed : SyncStateA) (seen : List String),
      (∀ p ∈ confirmed, p.1 ∈ seen) →
      saveOkFrom seen (pushPhase mk skuOf batchSize doSave newState fuel updates
        confirmed).1 := by
  intro fuel
  induction fuel with
  | zero =>
    intro updates confirmed seen hc
    cases updates <;> simp [pushPhase, saveOkFrom]
  | succ fuel ih =>
    intro updates confirmed seen hc
    cases updates with
    | nil => simp [pushPhase, saveOkFrom]
    | cons u us =>
      by_cases hb : batchSize = 0
      · simp [pushPhase, hb, saveOkFrom]
      · simp only [pushPhase, hb, if_false, Bool.false_eq_true]
        rw [saveOkFrom_cons_push _ _ _ (hsave _)]
        rw [hmk]
        have hc₁ : ∀ p ∈ applyConfirm newState confirmed
            (((u :: us).take batchSize).map skuOf),
            p.1 ∈ seen ++ ((u :: us).take batchSize).map skuOf := by
          intro p hp
          rcases applyConfirm_keys newState _ confirmed p hp with h | h
          · rcases List.mem_map.mp h with ⟨q, hq, hq₁⟩
            exact List.mem_append_left _ (hq₁ ▸ hc q hq)
          · exact List.mem_append_right _ h
        cases doSave with
        | false =>
          simp only [Bool.false_eq_true, if_false]
          exact ih _ _ _ hc₁
        | true =>
          simp only [if_true]
          exact ⟨hc₁, ih _ _ _ hc₁⟩

/-- The confirmed map a phase returns only contains previously confirmed keys
and SKUs of the phase's own updates. -/
theorem pushPhase_final_keys {υ : Type} (mk : List υ → Effect) (skuOf : υ → String)
    (batchSize : ℕ) (doSave : Bool) (newState : SyncStateA) :
    ∀ (fuel : ℕ) (updates : List υ) (confirmed : SyncStateA) (p : String × StateEntry),
      p ∈ (pushPhase mk skuOf batchSize doSave newState fuel updates confirmed).2 →
      p.1 ∈ confirmed.map Prod.fst ∨ ∃ u ∈ updates, skuOf u = p.1 := by
  intro fuel
  induction fuel with
  | zero =>
    intro updates confirmed p hp
    cases updates <;>
      exact Or.inl (List.mem_map_of_mem Prod.fst (by simpa [pushPhase] using hp))
  | succ fuel ih =>
    intro updates confirmed p hp
    cases updates with
    | nil => exact Or.inl (List.mem_map_of_mem Prod.fst (by simpa [pushPhase] using hp))
    | cons u us =>
      by_cases hb : batchSize = 0
      · simp only [pushPhase, hb, if_pos] at hp
        exact Or.inl (List.mem_map_of_mem Prod.fst hp)
      · simp only [pushPhase, hb, if_false, Bool.false_eq_true] at hp
        rcases ih _ _ p hp with h | h
        · rcases List.mem_map.mp h with ⟨q, hq, hq₁⟩
          rcases applyConfirm_keys newState _ confirmed q hq with h₁ | h₁
          · exact Or.inl (hq₁ ▸ h₁)
          · rcases List.mem_map.mp h₁ with ⟨v, hv, hv₁⟩
            exact Or.inr ⟨v, List.take_subset _ _ hv, hq₁ ▸ hv₁⟩
        · rcases h with ⟨v, hv, hv₁⟩
          exact Or.inr ⟨v, List.drop_subset _ _ hv, hv₁⟩

/-- With a positive batch size and enough fuel, every update of a phase is
pushed in some batch of its trace. -/
theorem pushPhase_covers {υ : Type} (mk : List υ → Effect) (skuOf : υ → String)
    (batchSize : ℕ) (doSave : Bool) (newState : SyncStateA)
    (hmk : ∀ b, pushSkus (mk b) = b.map skuOf) (hb : batchSize ≠ 0) :
    ∀ (fuel : ℕ) (updates : List υ) (confirmed : SyncStateA),
      updates.length ≤ fuel → ∀ u ∈ updates,
      skuOf u ∈ (pushPhase mk skuOf batchSize doSave newState fuel updates
        confirmed).1.flatMap pushSkus := by
  intro fuel
  induction fuel with
  | zero =>
    intro updates confirmed hlen u hu
    rw [Nat.le_zero, List.length_eq_zero] at hlen
    subst hlen
    cases hu
  | succ fuel ih =>
    intro updates confirmed hlen u hu
    cases updates with
    | nil => cases hu
    | cons v vs =>
      simp only [pushPhase, hb, if_false, Bool.false_eq_true]
      have hsplit := List.take_append_drop batchSize (v :: vs)
      rcases List.mem_append.mp (hsplit ▸ hu) with hin | hin
      · have hhead : skuOf u ∈ pushSkus (mk ((v :: vs).take batchSize)) := by
          rw [hmk]
          exact List.mem_map_of_mem skuOf hin
        cases doSave with
        | false => simpa using Or.inl hhead
        | true => simpa [pushSkus] using Or.inl hhead
      · have hlen₁ : ((v :: vs).drop batchSize).length ≤ fuel := by
          simp only [List.length_drop, List.length_cons] at *
          omega
        have htail := ih ((v :: vs).drop batchSize)
          (applyConfirm newState confirmed (((v :: vs).take batchSize).map skuOf))
          hlen₁ u hin
        cases doSave with
        | false => simpa using Or.inr htail
        | true => simpa [pushSkus] using Or.inr htail

end SyncEngine

namespace SyncEngine

/-- Every entry of the computed new state of a non-bootstrap diff belongs to a
SKU already present in the previous state or to a SKU with an emitted
inventory update. -/
theorem diff_newState_provenance (previousState : SyncStateA)
    (w : List (String × WoltDataEntry)) (force : Bool) (now : ℚ) :
    ∀ p ∈ (diffStage previousState w force false now).2.2,
      p.1 ∈ previousState.map Prod.fst ∨
        ∃ u ∈ (diffStage previousState w force false now).1, u.sku = p.1 := by
  intro p hp
  have hds : diffStage previousState w force false now =
      ((diffWolt previousState force false now w).1 ++
        (diffMissing w false now previousState).1,
       (diffWolt previousState force false now w).2.1 ++
        (diffMissing w false now previousState).2.1,
       (diffWolt previousState force false now w).2.2 ++
        (diffMissing w false now previousState).2.2) := rfl
  rw [hds, diffWolt_eq, diffMissing_eq] at hp ⊢
  simp only [List.mem_append] at hp
  rcases hp with hp | hp
  · rcases List.mem_map.mp hp with ⟨⟨sku, data⟩, hmem, hval⟩
    by_cases he : invEmit previousState force sku data = true
    · refine Or.inr ⟨{ sku := sku, inventory := data.quantity }, ?_, ?_⟩
      · apply List.mem_append_left
        exact List.mem_filterMap.mpr ⟨(sku, data), hmem, by simp [he]⟩
      · exact congrArg Prod.fst hval
    · simp only [invEmit] at he
      cases force with
      | true => simp at he
      | false =>
        cases hget : alistGet previousState sku with
        | none => rw [hget] at he; simp at he
        | some pe =>
          apply Or.inl
          have h₂ : p.1 = sku := (congrArg Prod.fst hval).symm
          rw [h₂]
          exact List.mem_map_of_mem Prod.fst (alistGet_mem previousState sku pe hget)
  · rcases List.mem_filterMap.mp hp with ⟨⟨sku, pe⟩, hmem, hval⟩
    by_cases hc : alistGet w sku = none
    · simp only [hc, if_true, Option.some.injEq] at hval
      apply Or.inl
      have h₂ : p.1 = sku := (congrArg Prod.fst hval).symm
      rw [h₂]
      exact List.mem_map_of_mem Prod.fst hmem
    · simp [hc] at hval

/-- The two push phases with the trailing final save obey the provenance
discipline, given that the saved map's keys come from the previous state or
the inventory updates. -/
theorem twoPhase_saveOk (itemUpd : List WoltItemUpdate) (invUpd : List WoltInventoryItem)
    (newState prev : SyncStateA) (batchSize : ℕ) (hb : batchSize ≠ 0) (doSave : Bool)
    (hns : doSave = true → ∀ p ∈ newState, p.1 ∈ prev.map Prod.fst ∨
      ∃ u ∈ invUpd, u.sku = p.1) :
    saveOkFrom (prev.map Prod.fst)
      ((pushPhase Effect.pushItems (fun u => u.sku) batchSize doSave newState
          itemUpd.length itemUpd prev).1 ++
        (pushPhase Effect.pushInventory (fun u => u.sku) batchSize doSave newState
          invUpd.length invUpd
          (pushPhase Effect.pushItems (fun u => u.sku) batchSize doSave newState
            itemUpd.length itemUpd prev).2).1 ++
        (if doSave then [Effect.saveState newState] else [])) := by
  have hmkI : ∀ b : List WoltItemUpdate,
      pushSkus (Effect.pushItems b) = b.map (fun u => u.sku) := fun b => rfl
  have hmkV : ∀ b : List WoltInventoryItem,
      pushSkus (Effect.pushInventory b) = b.map (fun u => u.sku) := fun b => rfl
  set seen₀ := prev.map Prod.fst with hseen₀
  set phase₁ := pushPhase Effect.pushItems (fun u => u.sku) batchSize doSave newState
    itemUpd.length itemUpd prev with hphase₁
  set phase₂ := pushPhase Effect.pushInventory (fun u => u.sku) batchSize doSave newState
    invUpd.length invUpd phase₁.2 with hphase₂
  rw [List.append_assoc, saveOkFrom_append, saveOkFrom_append]
  refine ⟨?_, ?_, ?_⟩
  · exact pushPhase_saveOk _ _ _ _ _ hmkI (fun b m => by simp) _ _ _ _
      (fun p hp => List.mem_map_of_mem Prod.fst hp)
  · apply pushPhase_saveOk _ _ _ _ _ hmkV (fun b m => by simp)
    intro p hp
    rcases pushPhase_final_keys _ _ _ _ _ _ _ _ p hp with h | h
    · exact List.mem_append_left _ h
    · rcases h with ⟨u, hu, hu₁⟩
      apply List.mem_append_right
      exact hu₁ ▸ pushPhase_covers _ _ _ _ _ hmkI hb _ _ _ le_rfl u hu
  · cases doSave with
    | false => simp [saveOkFrom]
    | true =>
      refine ⟨?_, trivial⟩
      intro p hp
      rcases hns rfl p hp with h | h
      · exact List.mem_append_left _ (List.mem_append_left _ h)
      · rcases h with ⟨u, hu, hu₁⟩
        refine List.mem_append_right _ ?_
        exact hu₁ ▸ pushPhase_covers _ _ _ _ _ hmkV hb _ _ _ le_rfl u hu

end SyncEngine

/-- C6 (amended): every state map persisted during a non-bootstrap run obeys
the provenance discipline: each of its SKUs was already present in the loaded
previous state or was pushed to the marketplace earlier in the same run's
trace.  (Bootstrap-mode runs are the exception the counterexample exhibits:
they persist the whole computed view without any push.) -/
theorem run_saves_only_confirmed_or_previous
    (storeEnabled : Bool) (options : SyncEngine.SyncOptions) (previousState : SyncStateA)
    (inventory : List FinaInventoryItem) (details : List FinaProductDetail)
    (now : ℚ) (batchSize : ℕ)
    (hboot : options.bootstrapState = false) (hb : batchSize ≠ 0) :
    SyncEngine.saveOkFrom (previousState.map Prod.fst)
      (SyncEngine.runWithOptions storeEnabled options previousState inventory details now
        batchSize).effects := by
  obtain ⟨dryRun, limit, force, boot⟩ := options
  simp only [SyncEngine.SyncOptions.bootstrapState] at hboot
  subst hboot
  cases storeEnabled with
  | false => simp [SyncEngine.runWithOptions, SyncEngine.saveOkFrom]
  | true =>
    by_cases hinv : inventory.isEmpty
    · simp [SyncEngine.runWithOptions, hinv, SyncEngine.saveOkFrom]
    · by_cases hdet : details.length < inventory.length
      · simp [SyncEngine.runWithOptions, hinv, hdet, SyncEngine.saveOkFrom]
      · cases dryRun with
        | true => simp [SyncEngine.runWithOptions, hinv, hdet, SyncEngine.saveOkFrom]
        | false =>
          simp only [SyncEngine.runWithOptions, hinv, hdet, if_false, Bool.false_eq_true,
            if_true, Bool.not_false, Bool.not_true]
          apply SyncEngine.twoPhase_saveOk _ _ _ _ _ hb
          intro hds p hp
          cases limit with
          | none =>
            exact SyncEngine.diff_newState_provenance previousState _ _ now p hp
          | some n =>
            by_cases hn : 0 < n
            · exfalso
              have : SyncEngine.limitTruthy (some n) = true := by
                simp [SyncEngine.limitTruthy, hn.ne']
              rw [this] at hds
              simp at hds
            · simp only [hn, if_false]
              exact SyncEngine.diff_newState_provenance previousState _ _ now p hp

/-- C6 (counterexample): a bootstrap run persists a state entry for SKU `C`
although its whole effect trace contains no marketplace push — so a persisted
StateEntry does not imply a prior confirmed push. -/
theorem bootstrap_persists_unpushed_entries :
    (SyncEngine.runWithOptions true ⟨false, none, false, true⟩ []
        [⟨3, 7, 2⟩] [⟨3, "c", some 100, [⟨"usr_column_514", "C"⟩]⟩] 0 50).effects =
      [SyncEngine.Effect.saveState
        [("C", { quantity := 7, enabled := true, price := some 100, lastSeen := 0 })]] := by
  decide

/-- C6 witness: the amended provenance discipline at a concrete delta run. -/
theorem run_saves_only_confirmed_or_previous_witness :
    SyncEngine.saveOkFrom
      (([("A", { quantity := 10, enabled := true, price := some 100, lastSeen := 0 })] :
          SyncStateA).map Prod.fst)
      (SyncEngine.runWithOptions true ⟨false, none, false, false⟩
        [("A", { quantity := 10, enabled := true, price := some 100, lastSeen := 0 })]
        [⟨1, 5, 2⟩] [⟨1, "a", some 100, [⟨"usr_column_514", "A"⟩]⟩] 0 50).effects :=
  run_saves_only_confirmed_or_previous true ⟨false, none, false, false⟩
    [("A", { quantity := 10, enabled := true, price := some 100, lastSeen := 0 })]
    [⟨1, 5, 2⟩] [⟨1, "a", some 100, [⟨"usr_column_514", "A"⟩]⟩] 0 50 rfl
    (by norm_num)

/-- C7 (divergence exhibit): a scored candidate with quantity 7 and an
`undefined` price scores 0 (`invalid-price`), is filtered out by
`getTopPriority`, and therefore the priority-sync push arrays are empty — the
invalid-price branch of `prioritySync` is unreachable, no `{enabled=false,
price=0}` / `{inventory=0}` updates are emitted for it. -/
theorem prioritySync_drops_invalid_price :
    HybridSync.prioritySyncUpdates PriorityScorer.defaultConfig [⟨3, 7, 2⟩]
      [⟨3, "c", none, [⟨"usr_column_514", "C"⟩]⟩] 500 = ([], []) := by
  decide

namespace StateManager

/-- A JSON value as produced by `JSON.parse` (numbers are finite rationals;
there is no `undefined`). -/
inductive JsonValue where
  | null
  | bool (b : Bool)
  | num (q : ℚ)
  | str (s : String)
  | arr (elems : List JsonValue)
  | obj (fields : List (String × JsonValue))

/-- Property lookup on a parsed object.  `JSON.parse` keeps the last duplicate
key, hence the last-binding-wins fold. -/
def jsonLookup (fields : List (String × JsonValue)) (key : String) : Option JsonValue :=
  fields.foldl (fun acc p => if p.1 = key then some p.2 else acc) none

/-- The per-entry schema check of `StateManager.isValidState`: the entry must
be a (non-null, non-array) object with finite-numeric `quantity`, boolean
`enabled`, and — when the key is present — finite-numeric `price` and
`lastSeen`. -/
def validEntry : JsonValue → Bool
  | .obj fields =>
    (match jsonLookup fields "quantity" with
     | some (.num _) => true
     | _ => false) &&
    (match jsonLookup fields "enabled" with
     | some (.bool _) => true
     | _ => false) &&
    (match jsonLookup fields "price" with
     | none => true
     | some (.num _) => true
     | _ => false) &&
    (match jsonLookup fields "lastSeen" with
     | none => true
     | some (.num _) => true
     | _ => false)
  | _ => false

/-- `sku.trim() === ''`: the key consists of whitespace only. -/
def isBlankKey (s : String) : Bool := s.toList.all Char.isWhitespace

/-- `StateManager.isValidState`: the loaded document must be a (non-null,
non-array) object whose keys are non-blank and whose entries all pass
`validEntry`.  (Keys of a parsed object are always strings, so the
`typeof sku !== 'string'` arm never fires; `sku.trim() === ''` is the
blank-key test.) -/
def isValidState : JsonValue → Bool
  | .obj fields => fields.all (fun p => (!isBlankKey p.1) && validEntry p.2)
  | _ => false

/-- What `fs.readJson` delivered for one file that exists: `none` when parsing
threw, `some v` for a parsed document. -/
abbrev FileRead := Option JsonValue

/-- `StateManager.readStateFile`: a parse failure or a schema-invalid document
both yield `null` (the error is logged and swallowed). -/
def readStateFile : FileRead → Option JsonValue
  | none => none
  | some data => if isValidState data then some data else none

/-- `StateManager.loadState` over the filesystem picture:
`primary`/`backup` are `none` when the file is absent, `some raw` when it
exists with read result `raw`.  Total by construction — every branch returns
a value, no branch throws. -/
def loadState (primary : Option FileRead) (backup : Option FileRead) : JsonValue :=
  match primary with
  | none => .obj []
  | some raw =>
    match readStateFile raw with
    | some s => s
    | none =>
      match backup with
      | none => .obj []
      | some braw =>
        match readStateFile braw with
        | some b => b
        | none => .obj []

end StateManager

/-- C5: `loadState` of an absent primary returns the empty map and never
consults the backup (the result is the same whatever the backup holds); a
present but unparseable or schema-invalid primary falls back to the backup
when the backup is valid, and to the empty map when the backup is absent or
invalid too.  `loadState` is a total function — no case throws. -/
theorem loadState_matches_spec :
    (∀ b₁ b₂ : Option StateManager.FileRead,
        StateManager.loadState none b₁ = StateManager.JsonValue.obj [] ∧
        StateManager.loadState none b₁ = StateManager.loadState none b₂) ∧
    (∀ (praw braw : StateManager.FileRead) (s : StateManager.JsonValue),
        StateManager.readStateFile praw = none →
        StateManager.readStateFile braw = some s →
        StateManager.loadState (some praw) (some braw) = s) ∧
    (∀ praw : StateManager.FileRead, StateManager.readStateFile praw = none →
        StateManager.loadState (some praw) none = StateManager.JsonValue.obj [] ∧
        ∀ braw : StateManager.FileRead, StateManager.readStateFile braw = none →
          StateManager.loadState (some praw) (some braw) =
            StateManager.JsonValue.obj []) := by
  refine ⟨fun b₁ b₂ => ⟨rfl, rfl⟩, ?_, ?_⟩
  · intro praw braw s hp hb
    simp [StateManager.loadState, hp, hb]
  · intro praw hp
    refine ⟨by simp [StateManager.loadState, hp], ?_⟩
    intro braw hb
    simp [StateManager.loadState, hp, hb]

/-- C5 witness: a corrupt primary (`null` document, schema-invalid) with a
valid one-entry backup loads the backup. -/
theorem loadState_matches_spec_witness :
    StateManager.loadState (some (some StateManager.JsonValue.null))
      (some (some (StateManager.JsonValue.obj
        [("A", StateManager.JsonValue.obj
          [("quantity", StateManager.JsonValue.num 5),
           ("enabled", StateManager.JsonValue.bool true)])]))) =
      StateManager.JsonValue.obj
        [("A", StateManager.JsonValue.obj
          [("quantity", StateManager.JsonValue.num 5),
           ("enabled", StateManager.JsonValue.bool true)])] :=
  loadState_matches_spec.2.1 (some StateManager.JsonValue.null)
    (some (StateManager.JsonValue.obj
      [("A", StateManager.JsonValue.obj
        [("quantity", StateManager.JsonValue.num 5),
         ("enabled", StateManager.JsonValue.bool true)])]))
    (StateManager.JsonValue.obj
      [("A", StateManager.JsonValue.obj
        [("quantity", StateManager.JsonValue.num 5),
         ("enabled", StateManager.JsonValue.bool true)])])
    (by rfl) (by rfl)

namespace WoltRateLimiter

/-- `WoltRateLimiterOptions`. -/
structure WoltRateLimiterOptions where
  minIntervalMs : ℚ
  retryAfterBufferMs : ℚ
  retryAfterJitterMs : ℚ
  learnMinIntervalFromRetryAfter : Bool
  enforceLearnedMinIntervalAfterSuccess : Bool
  maxLearnedMinIntervalMs : ℚ
deriving Repr, DecidableEq

/-- `WoltRateLimiter.fromEnv` with no environment overrides. -/
def defaultOptions : WoltRateLimiterOptions :=
  { minIntervalMs := 1100
    retryAfterBufferMs := 1000
    retryAfterJitterMs := 250
    learnMinIntervalFromRetryAfter := true
    enforceLearnedMinIntervalAfterSuccess := true
    maxLearnedMinIntervalMs := 60 * 60 * 1000 }

/-- The shapes a `Retry-After` header value can take for `parseRetryAfterMs`:
absent/non-string, a finite number, an all-digits string, an HTTP date that
`Date.parse` resolves to an epoch, or an unparseable non-empty string. -/
inductive RetryAfterHeader where
  | missing
  | numeric (q : ℚ)
  | digits (n : ℕ)
  | httpDate (epochMs : ℚ)
  | malformed
deriving Repr, DecidableEq

/-- `parseRetryAfterMs`. -/
def parseRetryAfterMs (value : RetryAfterHeader) (nowMs : ℚ) : Option ℚ :=
  match value with
  | .numeric q => if 0 ≤ q then some (q * 1000) else none
  | .digits n => some (max 0 (((n : ℤ) : ℚ) * 1000))
  | .httpDate e => some (max 0 (e - nowMs))
  | .missing => none
  | .malformed => none

/-- The per-venue limiter state (`nextAllowedAtMs`, `lastRequestAtMs`,
`learnedMinIntervalMs`); persistence is modelled as the state itself being
carried between operations (`saveState`/`loadState` round-trip on the same
values). -/
structure LimiterState where
  nextAllowedAtMs : ℚ
  lastRequestAtMs : ℚ
  learnedMinIntervalMs : ℚ
deriving Repr, DecidableEq

/-- `waitForTurn` at wall-clock `now`: compute the gate, sleep until it, and
stamp `lastRequestAtMs`.  Returns the instant the request is issued and the
successor state. -/
def waitForTurn (opts : WoltRateLimiterOptions) (st : LimiterState) (now : ℚ) :
    ℚ × LimiterState :=
  let minIntervalGate :=
    if 0 < st.lastRequestAtMs then
      st.lastRequestAtMs + max opts.minIntervalMs st.learnedMinIntervalMs
    else 0
  let gateAt := max st.nextAllowedAtMs minIntervalGate
  let requestAt := max gateAt now
  (requestAt, { st with lastRequestAtMs := requestAt })

/-- `onRateLimited` at wall-clock `now`; `jitter` is the sampled
`Math.floor(Math.random() * retryAfterJitterMs)` (non-negative). -/
def onRateLimited (opts : WoltRateLimiterOptions) (st : LimiterState)
    (value : RetryAfterHeader) (now jitter : ℚ) : LimiterState :=
  let retryAfterMs := parseRetryAfterMs value now
  let st₁ :=
    match retryAfterMs with
    | some r =>
      if opts.learnMinIntervalFromRetryAfter ∧ 0 < r then
        { st with
          learnedMinIntervalMs :=
            min (max st.learnedMinIntervalMs r) opts.maxLearnedMinIntervalMs }
      else st
    | none => st
  match retryAfterMs with
  | some r =>
    if 0 < r then
      { st₁ with
        nextAllowedAtMs :=
          max st₁.nextAllowedAtMs (now + r + opts.retryAfterBufferMs + jitter) }
    else st₁
  | none => st₁

/-- `onSuccess` at wall-clock `now`. -/
def onSuccess (opts : WoltRateLimiterOptions) (st : LimiterState) (now : ℚ) :
    LimiterState :=
  if !opts.enforceLearnedMinIntervalAfterSuccess then st
  else
    let postSuccessDelay := max opts.minIntervalMs st.learnedMinIntervalMs
    if postSuccessDelay ≤ 0 then st
    else { st with
           nextAllowedAtMs := max st.nextAllowedAtMs (now + postSuccessDelay) }

/-- A later operation on the same limiter. -/
inductive LimiterOp where
  | wait (now : ℚ)
  | success (now : ℚ)
  | rateLimited (value : RetryAfterHeader) (now jitter : ℚ)
deriving Repr, DecidableEq

def applyOp (opts : WoltRateLimiterOptions) (st : LimiterState) : LimiterOp → LimiterState
  | .wait now => (waitForTurn opts st now).2
  | .success now => onSuccess opts st now
  | .rateLimited value now jitter => onRateLimited opts st value now jitter

/-- Run a sequence of operations, collecting the instants at which
`waitForTurn` lets a request through. -/
def runOps (opts : WoltRateLimiterOptions) (st : LimiterState) :
    List LimiterOp → List ℚ × LimiterState
  | [] => ([], st)
  | LimiterOp.wait now :: rest =>
    let w := waitForTurn opts st now
    let tail := runOps opts w.2 rest
    (w.1 :: tail.1, tail.2)
  | op :: rest => runOps opts (applyOp opts st op) rest

/-- No operation ever lowers `nextAllowedAtMs`. -/
theorem applyOp_next_mono (opts : WoltRateLimiterOptions) (st : LimiterState)
    (op : LimiterOp) : st.nextAllowedAtMs ≤ (applyOp opts st op).nextAllowedAtMs := by
  cases op with
  | wait now => exact le_rfl
  | success now =>
    simp only [applyOp, onSuccess]
    cases he : opts.enforceLearnedMinIntervalAfterSuccess with
    | false => simp [he]
    | true =>
      by_cases h₂ : max opts.minIntervalMs st.learnedMinIntervalMs ≤ 0
      · simp [he, h₂]
      · simp [he, h₂, le_max_left]
  | rateLimited value now jitter =>
    simp only [applyOp, onRateLimited]
    cases hp : parseRetryAfterMs value now with
    | none => simp [hp]
    | some r =>
      cases hlearn : opts.learnMinIntervalFromRetryAfter with
      | true =>
        by_cases hr : 0 < r
        · simp [hp, hlearn, hr, le_max_left]
        · simp [hp, hlearn, hr]
      | false =>
        by_cases hr : 0 < r
        · simp [hp, hlearn, hr, le_max_left]
        · simp [hp, hlearn, hr]

/-- If the gate is at least `bound`, every request issued by any later
operation sequence is issued at or after `bound`, and the gate never drops
below `bound`. -/
theorem runOps_bounded (opts : WoltRateLimiterOptions) (bound : ℚ) :
    ∀ (ops : List LimiterOp) (st : LimiterState),
      bound ≤ st.nextAllowedAtMs →
      (∀ t ∈ (runOps opts st ops).1, bound ≤ t) ∧
        bound ≤ (runOps opts st ops).2.nextAllowedAtMs := by
  intro ops
  induction ops with
  | nil =>
    intro st hst
    exact ⟨fun t ht => absurd ht (by simp [runOps]), hst⟩
  | cons op rest ih =>
    intro st hst
    cases op with
    | wait now =>
      have hw : (waitForTurn opts st now).2.nextAllowedAtMs = st.nextAllowedAtMs := rfl
      have htail := ih (waitForTurn opts st now).2 (hw ▸ hst)
      refine ⟨?_, htail.2⟩
      intro t ht
      simp only [runOps, List.mem_cons] at ht
      rcases ht with ht | ht
      · subst ht
        calc bound ≤ st.nextAllowedAtMs := hst
          _ ≤ max st.nextAllowedAtMs _ := le_max_left _ _
          _ ≤ max (max st.nextAllowedAtMs _) now := le_max_left _ _
      · exact htail.1 t ht
    | success now =>
      have hs := le_trans hst (applyOp_next_mono opts st (.success now))
      have htail := ih _ hs
      exact ⟨fun t ht => htail.1 t ht, htail.2⟩
    | rateLimited value now jitter =>
      have hs := le_trans hst (applyOp_next_mono opts st (.rateLimited value now jitter))
      have htail := ih _ hs
      exact ⟨fun t ht => htail.1 t ht, htail.2⟩

end WoltRateLimiter

/-- C9: after a 429 whose `Retry-After` header is a positive integer-seconds
value `N`, every request subsequently admitted by `waitForTurn` on that
limiter — across any sequence of further waits, successes and rate-limit
events — is issued no earlier than `N * 1000` plus the configured buffer
milliseconds after the 429 was handled (the random jitter only pushes the
gate later). -/
theorem rateLimiter_respects_retry_after
    (opts : WoltRateLimiter.WoltRateLimiterOptions)
    (st : WoltRateLimiter.LimiterState) (N : ℕ) (hN : 0 < N)
    (now429 jitter : ℚ) (hj : 0 ≤ jitter)
    (ops : List WoltRateLimiter.LimiterOp) (t : ℚ)
    (ht : t ∈ (WoltRateLimiter.runOps opts
      (WoltRateLimiter.onRateLimited opts st
        (WoltRateLimiter.RetryAfterHeader.digits N) now429 jitter) ops).1) :
    now429 + N * 1000 + opts.retryAfterBufferMs ≤ t := by
  set r : ℚ := max 0 (((N : ℤ) : ℚ) * 1000) with hr
  have hrval : r = (N : ℚ) * 1000 := by
    rw [hr]
    rw [max_eq_right (by positivity)]
    push_cast
    ring
  have hrpos : 0 < r := by
    rw [hrval]
    positivity
  have hparse : WoltRateLimiter.parseRetryAfterMs
      (WoltRateLimiter.RetryAfterHeader.digits N) now429 = some r := rfl
  have hnext : now429 + N * 1000 + opts.retryAfterBufferMs ≤
      (WoltRateLimiter.onRateLimited opts st
        (WoltRateLimiter.RetryAfterHeader.digits N) now429 jitter).nextAllowedAtMs := by
    simp only [WoltRateLimiter.onRateLimited, hparse, hrpos, if_pos]
    calc now429 + N * 1000 + opts.retryAfterBufferMs
        ≤ now429 + r + opts.retryAfterBufferMs + jitter := by
          rw [hrval]; linarith
      _ ≤ max _ (now429 + r + opts.retryAfterBufferMs + jitter) := le_max_right _ _
  exact (WoltRateLimiter.runOps_bounded opts _ ops _ hnext).1 t ht

/-- C9 witness: with the default options, a 429 with `Retry-After: 2` at time
0 and zero jitter gates the next `waitForTurn` to fire at 3000 ms ≥ 2000 +
1000. -/
theorem rateLimiter_respects_retry_after_witness :
    (0 : ℚ) + ((2 : ℕ) : ℚ) * 1000 + WoltRateLimiter.defaultOptions.retryAfterBufferMs ≤
      3000 := by
  have hmem : (3000 : ℚ) ∈ (WoltRateLimiter.runOps WoltRateLimiter.defaultOptions
      (WoltRateLimiter.onRateLimited WoltRateLimiter.defaultOptions ⟨0, 0, 0⟩
        (WoltRateLimiter.RetryAfterHeader.digits 2) 0 0)
      [WoltRateLimiter.LimiterOp.wait 0]).1 := by
    norm_num [WoltRateLimiter.runOps, WoltRateLimiter.waitForTurn,
      WoltRateLimiter.onRateLimited, WoltRateLimiter.parseRetryAfterMs,
      WoltRateLimiter.defaultOptions]
  exact rateLimiter_respects_retry_after WoltRateLimiter.defaultOptions ⟨0, 0, 0⟩ 2
    (by norm_num) 0 0 le_rfl [WoltRateLimiter.LimiterOp.wait 0] 3000 hmem

namespace AdaptiveBatcher

/-- Per-venue `AdaptiveBatchConfig`. -/
structure AdaptiveBatchConfig where
  currentBatchSize : ℕ
  minBatchSize : ℕ
  maxBatchSize : ℕ
  successStreak : ℕ
  failureStreak : ℕ
  lastRateLimitAt : ℚ
  optimalBatchSize : ℕ
  totalRequests : ℕ
  totalRateLimits : ℕ
deriving Repr, DecidableEq

/-- The constructor's environment defaults for the controller
(`ADAPTIVE_INCREASE_THRESHOLD || '10'`, `ADAPTIVE_INCREASE_RATE || '1.1'`,
`ADAPTIVE_DECREASE_RATE || '0.5'`). -/
def defaultIncreaseThreshold : ℕ := 10
def defaultIncreaseRate : ℚ := 11 / 10
def defaultDecreaseRate : ℚ := 1 / 2

/-- `AdaptiveBatcher.initConfig`: the sizes come from
`ADAPTIVE_INITIAL_BATCH_SIZE || '1000'`, `ADAPTIVE_MIN_BATCH_SIZE || '10'`,
`ADAPTIVE_MAX_BATCH_SIZE || '5000'`; each `Option` argument is the
environment override (`none` = variable unset). -/
def initConfig (initialEnv minEnv maxEnv : Option ℕ) : AdaptiveBatchConfig :=
  let initialBatchSize := initialEnv.getD 1000
  let minBatchSize := minEnv.getD 10
  let maxBatchSize := maxEnv.getD 5000
  { currentBatchSize := initialBatchSize
    minBatchSize := minBatchSize
    maxBatchSize := maxBatchSize
    successStreak := 0
    failureStreak := 0
    lastRateLimitAt := 0
    optimalBatchSize := initialBatchSize
    totalRequests := 0
    totalRateLimits := 0 }

/-- `AdaptiveBatcher.getCurrentBatchSize`: look the venue up, initialize on a
miss. -/
def getCurrentBatchSize (config : List (String × AdaptiveBatchConfig))
    (venueId : String) (initialEnv minEnv maxEnv : Option ℕ) : ℕ :=
  match alistGet config venueId with
  | some cfg => cfg.currentBatchSize
  | none => (initConfig initialEnv minEnv maxEnv).currentBatchSize

/-- `AdaptiveBatcher.onSuccess` on one venue's config. -/
def onSuccess (increaseThreshold : ℕ) (increaseRate : ℚ)
    (cfg : AdaptiveBatchConfig) : AdaptiveBatchConfig :=
  let cfg₁ := { cfg with
    successStreak := cfg.successStreak + 1
    failureStreak := 0
    totalRequests := cfg.totalRequests + 1 }
  let cfg₂ :=
    if increaseThreshold ≤ cfg₁.successStreak then
      { cfg₁ with
        currentBatchSize :=
          min (Int.toNat (Int.floor ((cfg₁.currentBatchSize : ℚ) * increaseRate)))
            cfg₁.maxBatchSize
        successStreak := 0 }
    else cfg₁
  if 5 < cfg₂.successStreak then { cfg₂ with optimalBatchSize := cfg₂.currentBatchSize }
  else cfg₂

/-- `AdaptiveBatcher.onRateLimit` on one venue's config. -/
def onRateLimit (decreaseRate : ℚ) (cfg : AdaptiveBatchConfig) (now : ℚ) :
    AdaptiveBatchConfig :=
  let cfg₁ := { cfg with
    failureStreak := cfg.failureStreak + 1
    successStreak := 0
    lastRateLimitAt := now
    totalRequests := cfg.totalRequests + 1
    totalRateLimits := cfg.totalRateLimits + 1 }
  { cfg₁ with
    currentBatchSize :=
      max (Int.toNat (Int.floor ((cfg₁.currentBatchSize : ℚ) * decreaseRate)))
        cfg₁.minBatchSize }

end AdaptiveBatcher

/-- C4 (counterexample): with no persisted state and no environment overrides,
`initConfig` starts a venue at batch size 1000 with ceiling 5000 — the first
batch sized for a fresh venue has 1000 > 200 items, and neither "initial ≤ 50"
nor "max 200" holds for the code's defaults. -/
theorem initConfig_defaults_exceed_claimed_bounds :
    (AdaptiveBatcher.initConfig none none none).currentBatchSize = 1000 ∧
    (AdaptiveBatcher.initConfig none none none).minBatchSize = 10 ∧
    (AdaptiveBatcher.initConfig none none none).maxBatchSize = 5000 ∧
    AdaptiveBatcher.getCurrentBatchSize [] "venue-1" none none none = 1000 ∧
    ¬ (AdaptiveBatcher.initConfig none none none).currentBatchSize ≤ 50 ∧
    ¬ (AdaptiveBatcher.initConfig none none none).maxBatchSize ≤ 200 ∧
    ¬ AdaptiveBatcher.getCurrentBatchSize [] "venue-1" none none none ≤ 200 := by
  decide

/-- C4 (amended): without environment overrides a fresh venue is initialized
to `currentBatchSize = 1000`, `min = 10`, `max = 5000`; and for any rates with
`increaseRate ≥ 1` and `0 ≤ decreaseRate ≤ 1` (the defaults are 1.1 and 0.5),
both controller steps keep the batch size within `[minBatchSize,
maxBatchSize]` and leave the bounds themselves unchanged — so under the code's
own defaults the ceiling is 5000, not 200. -/
theorem adaptiveBatcher_defaults_and_bounds
    (increaseThreshold : ℕ) (increaseRate decreaseRate : ℚ)
    (hinc : 1 ≤ increaseRate) (hdec₀ : 0 ≤ decreaseRate) (hdec₁ : decreaseRate ≤ 1)
    (cfg : AdaptiveBatcher.AdaptiveBatchConfig)
    (hlo : cfg.minBatchSize ≤ cfg.currentBatchSize)
    (hhi : cfg.currentBatchSize ≤ cfg.maxBatchSize) (now : ℚ) :
    (AdaptiveBatcher.initConfig none none none).currentBatchSize = 1000 ∧
    (AdaptiveBatcher.initConfig none none none).minBatchSize = 10 ∧
    (AdaptiveBatcher.initConfig none none none).maxBatchSize = 5000 ∧
    ((AdaptiveBatcher.onSuccess increaseThreshold increaseRate cfg).minBatchSize =
        cfg.minBatchSize ∧
      (AdaptiveBatcher.onSuccess increaseThreshold increaseRate cfg).maxBatchSize =
        cfg.maxBatchSize ∧
      cfg.minBatchSize ≤
        (AdaptiveBatcher.onSuccess increaseThreshold increaseRate cfg).currentBatchSize ∧
      (AdaptiveBatcher.onSuccess increaseThreshold increaseRate cfg).currentBatchSize ≤
        cfg.maxBatchSize) ∧
    ((AdaptiveBatcher.onRateLimit decreaseRate cfg now).minBatchSize = cfg.minBatchSize ∧
      (AdaptiveBatcher.onRateLimit decreaseRate cfg now).maxBatchSize = cfg.maxBatchSize ∧
      cfg.minBatchSize ≤ (AdaptiveBatcher.onRateLimit decreaseRate cfg now).currentBatchSize ∧
      (AdaptiveBatcher.onRateLimit decreaseRate cfg now).currentBatchSize ≤
        cfg.maxBatchSize) := by
  have hfloor_ge : (cfg.currentBatchSize : ℤ) ≤
      Int.floor ((cfg.currentBatchSize : ℚ) * increaseRate) := by
    rw [Int.le_floor]
    push_cast
    exact le_mul_of_one_le_right (by positivity) hinc
  have hinc_ge : cfg.currentBatchSize ≤
      Int.toNat (Int.floor ((cfg.currentBatchSize : ℚ) * increaseRate)) := by
    have := Int.toNat_le_toNat hfloor_ge
    simpa using this
  have hfloor_le : Int.floor ((cfg.currentBatchSize : ℚ) * decreaseRate) ≤
      (cfg.currentBatchSize : ℤ) := by
    calc Int.floor ((cfg.currentBatchSize : ℚ) * decreaseRate)
        ≤ Int.floor ((cfg.currentBatchSize : ℚ)) := by
          apply Int.floor_le_floor
          exact mul_le_of_le_one_right (by positivity) hdec₁
      _ = (cfg.currentBatchSize : ℤ) := Int.floor_natCast _
  have hdec_le : Int.toNat (Int.floor ((cfg.currentBatchSize : ℚ) * decreaseRate)) ≤
      cfg.currentBatchSize := by
    have := Int.toNat_le_toNat hfloor_le
    simpa using this
  refine ⟨rfl, rfl, rfl, ⟨?_, ?_, ?_, ?_⟩, ⟨rfl, rfl, ?_, ?_⟩⟩
  · simp only [AdaptiveBatcher.onSuccess]
    split <;> split <;> rfl
  · simp only [AdaptiveBatcher.onSuccess]
    split <;> split <;> rfl
  · simp only [AdaptiveBatcher.onSuccess]
    split
    · split
      · exact le_min (le_trans hlo hinc_ge) (le_trans hlo hhi)
      · exact le_min (le_trans hlo hinc_ge) (le_trans hlo hhi)
    · split
      · exact hlo
      · exact hlo
  · simp only [AdaptiveBatcher.onSuccess]
    split
    · split
      · exact min_le_right _ _
      · exact min_le_right _ _
    · split
      · exact hhi
      · exact hhi
  · simp only [AdaptiveBatcher.onRateLimit]
    exact le_max_right _ _
  · simp only [AdaptiveBatcher.onRateLimit]
    exact max_le (le_trans hdec_le hhi) (le_trans hlo hhi)

/-- C4 witness: the amended bounds at the default rates on the default fresh
config (initial 1000 within `[10, 5000]`). -/
theorem adaptiveBatcher_defaults_and_bounds_witness :
    (AdaptiveBatcher.initConfig none none none).currentBatchSize = 1000 ∧
    (AdaptiveBatcher.onRateLimit AdaptiveBatcher.defaultDecreaseRate
        (AdaptiveBatcher.initConfig none none none) 0).currentBatchSize ≤
      (AdaptiveBatcher.initConfig none none none).maxBatchSize := by
  have h := adaptiveBatcher_defaults_and_bounds AdaptiveBatcher.defaultIncreaseThreshold
    AdaptiveBatcher.defaultIncreaseRate AdaptiveBatcher.defaultDecreaseRate
    (by norm_num [AdaptiveBatcher.defaultIncreaseRate])
    (by norm_num [AdaptiveBatcher.defaultDecreaseRate])
    (by norm_num [AdaptiveBatcher.defaultDecreaseRate])
    (AdaptiveBatcher.initConfig none none none) (by decide) (by decide) 0
  exact ⟨h.1, h.2.2.2.2.2.2.2⟩

namespace BackgroundWorker

/-- The payload-building loop of `BackgroundWorker.syncNextBatch` (lines
313–329): for each candidate `{finaId, woltSku}` look up detail and stock
(`stockMap.get(finaId) || 0`), skip candidates without a detail, and emit
`{sku, enabled: quantity > 0, price: detail.price}` plus
`{sku, inventory: quantity}`. -/
def buildWorkerUpdates (stockMap : List (ℕ × ℚ))
    (detailMap : List (ℕ × FinaProductDetail)) :
    List (ℕ × String) → List WoltItemUpdate × List WoltInventoryItem
  | [] => ([], [])
  | (finaId, woltSku) :: rest =>
    let tail := buildWorkerUpdates stockMap detailMap rest
    match nlistGet detailMap finaId with
    | none => tail
    | some detail =>
      let quantity := (nlistGet stockMap finaId).getD 0
      ({ sku := woltSku, enabled := some (decide (0 < quantity)), price := detail.price }
          :: tail.1,
       { sku := woltSku, inventory := quantity } :: tail.2)

end BackgroundWorker

namespace PriorityScorer

theorem insertByPriority_mem (x a : PriorityScoredItem) (l : List PriorityScoredItem) :
    a ∈ insertByPriority x l ↔ a = x ∨ a ∈ l := by
  induction l with
  | nil => simp [insertByPriority]
  | cons y t ih =>
    by_cases h : x.priority < y.priority
    · simp only [insertByPriority, h, if_pos, List.mem_cons, ih]
      tauto
    · simp only [insertByPriority, h, if_neg, not_false_iff, List.mem_cons] <;>
      tauto

theorem sortByPriority_mem (a : PriorityScoredItem) (l : List PriorityScoredItem) :
    a ∈ sortByPriority l ↔ a ∈ l := by
  induction l with
  | nil => simp [sortByPriority]
  | cons y t ih =>
    have : sortByPriority (y :: t) = insertByPriority y (sortByPriority t) := rfl
    rw [this, insertByPriority_mem]
    simp [ih]

/-- A positive score implies the pair had a valid (present, non-negative)
price: `calculatePriority` returns 0 outright on the invalid-price guard. -/
theorem calculatePriority_pos_price (cfg : PriorityConfig) (inv : FinaInventoryItem)
    (d : FinaProductDetail) (h : 0 < (calculatePriority cfg inv d).1) :
    ∃ p, d.price = some p ∧ 0 ≤ p := by
  cases hp : d.price with
  | none => rw [calculatePriority, hp] at h; norm_num at h
  | some p =>
    by_cases hneg : p < 0
    · rw [calculatePriority, hp] at h
      simp only [hneg, if_pos] at h
      norm_num at h
    · exact ⟨p, rfl, not_lt.mp hneg⟩

/-- Every scored row carries the score and price of its own
(inventory, detail) pair. -/
theorem scoreItems_price_valid (cfg : PriorityConfig)
    (detailMap : List (ℕ × FinaProductDetail)) (skuMap : List (ℕ × String)) :
    ∀ (inventory : List FinaInventoryItem) (s : PriorityScoredItem),
      s ∈ scoreItems cfg detailMap skuMap inventory → 0 < s.priority →
      ∃ p, s.price = some p ∧ 0 ≤ p := by
  intro inventory
  induction inventory with
  | nil => intro s hs; cases hs
  | cons item rest ih =>
    intro s hs hpos
    simp only [scoreItems] at hs
    cases hd : nlistGet detailMap item.id with
    | none =>
      rw [hd] at hs
      exact ih s hs hpos
    | some detail =>
      rw [hd] at hs
      cases hsku : nlistGet skuMap item.id with
      | none =>
        rw [hsku] at hs
        exact ih s hs hpos
      | some woltSku =>
        rw [hsku] at hs
        rcases List.mem_cons.mp hs with hs₁ | hs₁
        · subst hs₁
          exact calculatePriority_pos_price cfg item detail hpos
        · exact ih s hs₁ hpos

/-- No candidate whose price is invalid ever reaches the priority push: every
item `getTopPriority` returns out of `scoreAndSort`'s rows has a valid price
(score 0 rows — in particular all invalid-price rows — are filtered out). -/
theorem getTopPriority_price_valid (cfg : PriorityConfig)
    (inventory : List FinaInventoryItem) (details : List FinaProductDetail)
    (skuMap : List (ℕ × String)) (limit : ℕ) (item : PriorityScoredItem)
    (hmem : item ∈ getTopPriority (scoreAndSort cfg inventory details skuMap) limit) :
    ∃ p, item.price = some p ∧ 0 ≤ p := by
  simp only [getTopPriority] at hmem
  split at hmem
  · cases hmem
  · have h₁ := List.take_subset limit _ hmem
    have h₂ := List.mem_filter.mp h₁
    have h₃ : item ∈ scoreAndSort cfg inventory details skuMap := h₂.1
    have hpos : 0 < item.priority := by
      have := h₂.2
      simpa using this
    simp only [scoreAndSort] at h₃
    rw [sortByPriority_mem] at h₃
    exact scoreItems_price_valid cfg _ _ _ item h₃ hpos

end PriorityScorer

/-- C1 (divergence exhibit): on the spec's scenario S2 — one product, quantity
7, `undefined` price, SKU `C`, no prior state — the engine as shipped emits
`enabled = true`, no price, inventory 7, and records quantity 7 / enabled true
in state; the BackgroundWorker's payload builder does the same.  The spec's
invalid-price contract demands `enabled = false`, `price = 0`, `inventory = 0`
and a `{0, false}` state entry; neither sync.ts nor the worker has any
invalid-price handling. -/
theorem run_invalid_price_not_zeroed :
    (SyncEngine.runWithOptions true ⟨false, none, false, false⟩ []
        [⟨3, 7, 2⟩] [⟨3, "c", none, [⟨"usr_column_514", "C"⟩]⟩] 0 50).itemUpdates =
      [{ sku := "C", enabled := some true, price := none }] ∧
    (SyncEngine.runWithOptions true ⟨false, none, false, false⟩ []
        [⟨3, 7, 2⟩] [⟨3, "c", none, [⟨"usr_column_514", "C"⟩]⟩] 0 50).inventoryUpdates =
      [{ sku := "C", inventory := 7 }] ∧
    (SyncEngine.runWithOptions true ⟨false, none, false, false⟩ []
        [⟨3, 7, 2⟩] [⟨3, "c", none, [⟨"usr_column_514", "C"⟩]⟩] 0 50).newState =
      [("C", { quantity := 7, enabled := true, price := none, lastSeen := 0 })] ∧
    BackgroundWorker.buildWorkerUpdates [(3, 7)]
        [(3, ⟨3, "c", none, [⟨"usr_column_514", "C"⟩]⟩)] [(3, "C")] =
      ([{ sku := "C", enabled := some true, price := none }],
       [{ sku := "C", inventory := 7 }]) := by
  refine ⟨by decide, by decide, by decide, by decide⟩
